import Mathlib

/-!
Verification of the FreeLB block-field data structures against their
natural-language specification.

The development shallowly embeds the C++ code of
`src/data_struct/field.h`:

* `CyclicArray` (the periodic-shift streaming buffer) is embedded as a
  record holding the element count, the backing memory, the `shift`
  accumulator, the derived `remainder` split point, the two segment
  start pointers and `lastOffset`.  Machine pointers are modelled as
  integer offsets from the allocation base: the backing memory is a
  total function `ℤ → T`, so that reads and writes outside the
  allocated range `[0, count)` are meaningful (they hit unrelated heap
  memory and return junk values), exactly as C++ pointer arithmetic
  does.  `std::size_t remainder` is modelled as a plain integer; every
  state reached in the theorems below keeps `remainder` nonnegative
  and far below `2^63`, where the signed model and the unsigned C++
  value agree.
* `GenericArray` and `GenericField` are embedded the same way.
* The inter-block transfer routines `FieldInterpolation2D`,
  `FieldAverage2D` and `FieldCopy2D` are embedded as sequential folds
  over their loop iteration spaces, with `FloatType` and `datatype`
  modelled as exact rationals.
-/

namespace FreeLB

/-- Embedding of `CyclicArray<T>` from `src/data_struct/field.h`.
`data` is the machine memory seen from the allocation base pointer:
`data p` is the value stored at address `base + p`; the allocated
cells are the addresses `0 ≤ p < count`.  `start0` and `start1` model
the two segment start pointers `start[0]`, `start[1]` as offsets from
the base pointer. -/
structure CyclicArray (T : Type) where
  count : ℕ
  data : ℤ → T
  shift : ℤ
  remainder : ℤ
  start0 : ℤ
  start1 : ℤ
  lastOffset : ℤ

namespace CyclicArray

variable {T : Type}

/-- The segment-pointer resolution `(i > remainder ? start[1] : start[0])[i]`
shared verbatim by `operator[]`, `set` and the tail of `getPrevious`. -/
def resolve (a : CyclicArray T) (j : ℤ) : ℤ :=
  if j > a.remainder then a.start1 + j else a.start0 + j

/-- `operator[]` of `CyclicArray`. -/
def get (a : CyclicArray T) (i : ℕ) : T :=
  a.data (a.resolve i)

/-- `CyclicArray::set`. -/
def set (a : CyclicArray T) (i : ℕ) (v : T) : CyclicArray T :=
  { a with data := Function.update a.data (a.resolve i) v }

/-- `CyclicArray::getPrevious`: adds `lastOffset` to `i`, wraps the sum
once into `[0, count)`, then resolves through the segment pointers. -/
def getPrevious (a : CyclicArray T) (i : ℕ) : T :=
  a.data (a.resolve
    (if (i : ℤ) + a.lastOffset < 0 then (i : ℤ) + a.lastOffset + a.count
     else if (i : ℤ) + a.lastOffset ≥ (a.count : ℤ) then (i : ℤ) + a.lastOffset - a.count
     else (i : ℤ) + a.lastOffset))

/-- `CyclicArray::refresh`: recomputes `remainder`, `start[0]`, `start[1]`
from `shift`.  In the source, `start[1] = base - (n - shift)` when
`shift >= 0`, i.e. offset `shift - n` from the base. -/
def refresh (a : CyclicArray T) : CyclicArray T :=
  if a.shift ≥ 0 then
    { a with remainder := (a.count : ℤ) - a.shift - 1,
             start0 := a.shift, start1 := a.shift - (a.count : ℤ) }
  else
    { a with remainder := -a.shift - 1,
             start0 := (a.count : ℤ) + a.shift, start1 := a.shift }

/-- `CyclicArray::rotate`: records `lastOffset`, decrements `shift` by
`offset`, wraps once by `count` if the result left `(-count, count)`,
and refreshes the derived fields. -/
def rotate (a : CyclicArray T) (offset : ℤ) : CyclicArray T :=
  refresh
    { a with
      lastOffset := offset
      shift :=
        (if a.shift - offset ≥ (a.count : ℤ) then a.shift - offset - a.count
         else if a.shift - offset ≤ -(a.count : ℤ) then a.shift - offset + a.count
         else a.shift - offset) }

/-- `CyclicArray::Resize`: a same-size resize returns immediately;
otherwise the old buffer is dropped, a value-initialized buffer
(`new T[size]{}`, modelled as default-valued memory) is installed and
`shift`, `remainder`, `lastOffset` are reset before `refresh()`. -/
def Resize [Inhabited T] (a : CyclicArray T) (size : ℕ) : CyclicArray T :=
  if size = a.count then a
  else
    refresh { count := size, data := fun _ => default, shift := 0,
              remainder := (size : ℤ), start0 := a.start0, start1 := a.start1,
              lastOffset := 0 }

/-- The constructor `CyclicArray(size)`, generalized over the memory
the allocation lands in: cells `[0, size)` of `f` hold the constructed
contents, addresses outside hold the unrelated heap junk that the
model also reads on an out-of-bounds access.  The member initializer
list sets `shift = 0`, `remainder = size`, `lastOffset = 0` (and null
segment pointers before `refresh()` derives them). -/
def fromMemory (size : ℕ) (f : ℤ → T) : CyclicArray T :=
  refresh { count := size, data := f, shift := 0, remainder := (size : ℤ),
            start0 := 0, start1 := 0, lastOffset := 0 }

/-- A healthy `CyclicArray` state: positive count, `shift` wrapped into
`(-count, count)`, and the derived fields consistent with `refresh`
(every mutating member of the class ends by calling `refresh()`). -/
def Valid (a : CyclicArray T) : Prop :=
  1 ≤ a.count ∧ -(a.count : ℤ) < a.shift ∧ a.shift < (a.count : ℤ) ∧ a.refresh = a

end CyclicArray

/-- Embedding of `GenericArray<T>`: element count plus the backing
memory viewed from the base pointer, as for `CyclicArray`. -/
structure GenericArray (T : Type) where
  count : ℕ
  data : ℤ → T

namespace GenericArray

variable {T : Type}

/-- `operator[]` of `GenericArray`; the index is modelled as an integer
address offset so that out-of-range accesses are expressible. -/
def get (a : GenericArray T) (i : ℤ) : T :=
  a.data i

/-- `GenericArray::set` / `operator[]` assignment. -/
def set (a : GenericArray T) (i : ℤ) (v : T) : GenericArray T :=
  { a with data := Function.update a.data i v }

/-- `GenericArray::Init`: `std::fill` over the allocated cells. -/
def Init (a : GenericArray T) (v : T) : GenericArray T :=
  { a with data := fun p => if 0 ≤ p ∧ p < (a.count : ℤ) then v else a.data p }

/-- `GenericArray::Resize`: returns immediately on an equal size,
otherwise drops the buffer and installs a value-initialized one
(`new T[size]{}`, modelled as default-valued memory). -/
def Resize [Inhabited T] (a : GenericArray T) (size : ℕ) : GenericArray T :=
  if size = a.count then a else { count := size, data := fun _ => default }

end GenericArray

/-- Embedding of `GenericField<ArrayType, D>` with `ArrayType` fixed to
`GenericArray` over exact rationals is obtained at `T := ℚ`; the record
holds the `std::array<ArrayType, D> _Data`. -/
structure GenericField (T : Type) (D : ℕ) where
  _Data : Fin D → GenericArray T

namespace GenericField

variable {T : Type} {D : ℕ}

/-- `GenericField::getField(i)`. -/
def getField (f : GenericField T D) (i : Fin D) : GenericArray T :=
  f._Data i

end GenericField

/-- Modelled from the spec: the axis-aligned box `AABB<FloatType, 2>`
(not under `src/`; only used through `getMin` and
`getExtension() = max - min`), with `FloatType` as exact rationals. -/
structure AABB2 where
  minx : ℚ
  miny : ℚ
  maxx : ℚ
  maxy : ℚ

/-- Modelled from the spec: `getIntersection` of two blocks is the
exact physical intersection rectangle (componentwise max of the min
corners, min of the max corners). -/
def getIntersection (a b : AABB2) : AABB2 :=
  { minx := max a.minx b.minx, miny := max a.miny b.miny,
    maxx := min a.maxx b.maxx, maxy := min a.maxy b.maxy }

/-- Modelled from the spec: the part of `BasicBlock<FloatType, 2>` the
transfer routines consume: the AABB (`getMin`), the voxel size
(`getVoxelSize`) and the integer mesh dimensions (`getNx`, `getNy`). -/
structure BasicBlock2 where
  aabb : AABB2
  voxelSize : ℚ
  Nx : ℤ
  Ny : ℤ

/-- `static_cast<int>` / int-initialization of a `FloatType` value:
truncation toward zero. -/
def cppIntCast (q : ℚ) : ℤ :=
  Int.tdiv q.num (q.den : ℤ)

/-- The iteration space of `for (iy = 0; iy < ny; ++iy) for (ix = 0; ix < nx; ++ix)`,
in execution order; a non-positive bound yields no iterations. -/
def loopPairs (ny nx : ℤ) : List (ℤ × ℤ) :=
  (List.range ny.toNat).flatMap fun (iy : ℕ) =>
    (List.range nx.toNat).map fun (ix : ℕ) => ((iy : ℤ), (ix : ℤ))

/-- The quantities `FieldCopy2D` derives from the blocks before its
loops (lines 499-509 of `field.h`). -/
structure CopyParams where
  Nx : ℤ
  Ny : ℤ
  startFromx : ℤ
  startFromy : ℤ
  startTox : ℤ
  startToy : ℤ
  deriving DecidableEq

/-- Intersection-and-translation prologue of `FieldCopy2D`. -/
def copyParams (FromBlock FromBaseBlock ToBlock ToBaseBlock : BasicBlock2) : CopyParams :=
  let intsec := getIntersection FromBaseBlock.aabb ToBaseBlock.aabb
  { Nx := cppIntCast ((intsec.maxx - intsec.minx) / FromBlock.voxelSize)
    Ny := cppIntCast ((intsec.maxy - intsec.miny) / FromBlock.voxelSize)
    startFromx := cppIntCast ((intsec.minx - FromBlock.aabb.minx) / FromBlock.voxelSize)
    startFromy := cppIntCast ((intsec.miny - FromBlock.aabb.miny) / FromBlock.voxelSize)
    startTox := cppIntCast ((intsec.minx - ToBlock.aabb.minx) / ToBlock.voxelSize)
    startToy := cppIntCast ((intsec.miny - ToBlock.aabb.miny) / ToBlock.voxelSize) }

/-- `FieldCopy2D`: per component, element-for-element transfer over the
translated intersection rectangle. -/
def FieldCopy2D {D : ℕ} (FromField ToField : GenericField ℚ D)
    (FromBlock FromBaseBlock ToBlock ToBaseBlock : BasicBlock2) : GenericField ℚ D :=
  let P := copyParams FromBlock FromBaseBlock ToBlock ToBaseBlock
  { _Data := fun iArr =>
      (loopPairs P.Ny P.Nx).foldl
        (fun ToArray q =>
          ToArray.set ((q.1 + P.startToy) * ToBlock.Nx + q.2 + P.startTox)
            ((FromField.getField iArr).get
              ((q.1 + P.startFromy) * FromBlock.Nx + q.2 + P.startFromx)))
        (ToField.getField iArr) }

/-- The quantities `FieldAverage2D` derives from the blocks before its
loops (lines 458-469 of `field.h`). -/
structure AvgParams where
  CNx : ℤ
  CNy : ℤ
  startCx : ℤ
  startCy : ℤ
  startFx : ℤ
  startFy : ℤ
  deriving DecidableEq

/-- Intersection-and-translation prologue of `FieldAverage2D`. -/
def avgParams (FBlock FBaseBlock CBlock CBaseBlock : BasicBlock2) : AvgParams :=
  let intsec := getIntersection CBaseBlock.aabb FBaseBlock.aabb
  { CNx := cppIntCast ((intsec.maxx - intsec.minx) / CBlock.voxelSize)
    CNy := cppIntCast ((intsec.maxy - intsec.miny) / CBlock.voxelSize)
    startCx := cppIntCast ((intsec.minx - CBlock.aabb.minx) / CBlock.voxelSize)
    startCy := cppIntCast ((intsec.miny - CBlock.aabb.miny) / CBlock.voxelSize)
    startFx := cppIntCast ((intsec.minx - FBlock.aabb.minx) / FBlock.voxelSize)
    startFy := cppIntCast ((intsec.miny - FBlock.aabb.miny) / FBlock.voxelSize) }

/-- `FieldAverage2D`: per component, each coarse intersection cell
receives the sum of its four fine children times `0.25`. -/
def FieldAverage2D {D : ℕ} (FField CField : GenericField ℚ D)
    (FBlock FBaseBlock CBlock CBaseBlock : BasicBlock2) : GenericField ℚ D :=
  let P := avgParams FBlock FBaseBlock CBlock CBaseBlock
  { _Data := fun iArr =>
      (loopPairs P.CNy P.CNx).foldl
        (fun CArray q =>
          CArray.set ((q.1 + P.startCy) * CBlock.Nx + q.2 + P.startCx)
            (((FField.getField iArr).get ((q.1 * 2 + P.startFy) * FBlock.Nx + q.2 * 2 + P.startFx)
              + (FField.getField iArr).get
                  ((q.1 * 2 + P.startFy) * FBlock.Nx + q.2 * 2 + P.startFx + 1)
              + (FField.getField iArr).get
                  ((q.1 * 2 + P.startFy) * FBlock.Nx + q.2 * 2 + P.startFx + FBlock.Nx)
              + (FField.getField iArr).get
                  ((q.1 * 2 + P.startFy) * FBlock.Nx + q.2 * 2 + P.startFx + FBlock.Nx + 1))
              * (0.25 : ℚ)))
        (CField.getField iArr) }

/-- The four-point blend of stencil case `k` of `FieldInterpolation2D`,
applied to the coarse values at `Cid0`, `Cid1`, `Cid2`, `Cid3` (cases
0-3 are the four loop nests of lines 394-445 of `field.h`). -/
def interpBlend (k : Fin 4) (c0 c1 c2 c3 : ℚ) : ℚ :=
  match k with
  | 0 => c0 * (0.0625 : ℚ) + c1 * (0.1875 : ℚ) + c2 * (0.1875 : ℚ) + c3 * (0.5625 : ℚ)
  | 1 => c0 * (0.1875 : ℚ) + c1 * (0.0625 : ℚ) + c2 * (0.5625 : ℚ) + c3 * (0.1875 : ℚ)
  | 2 => c0 * (0.1875 : ℚ) + c1 * (0.5625 : ℚ) + c2 * (0.0625 : ℚ) + c3 * (0.1875 : ℚ)
  | 3 => c0 * (0.5625 : ℚ) + c1 * (0.1875 : ℚ) + c2 * (0.1875 : ℚ) + c3 * (0.0625 : ℚ)

/-- The quantities `FieldInterpolation2D` derives from the blocks
before its loops (lines 371-388 of `field.h`); the shifted starts are
`startCx = startCx_ - 1` and `startFx_ = startFx + 1` (same in `y`). -/
structure InterpParams where
  CNx : ℤ
  CNy : ℤ
  startCxu : ℤ
  startCyu : ℤ
  startFx : ℤ
  startFy : ℤ
  deriving DecidableEq

/-- Intersection-and-translation prologue of `FieldInterpolation2D`;
`startCxu`/`startCyu` are the unshifted `startCx_`/`startCy_`. -/
def interpParams (CBlock CBaseBlock FBlock FBaseBlock : BasicBlock2) : InterpParams :=
  let intsec := getIntersection CBaseBlock.aabb FBaseBlock.aabb
  { CNx := cppIntCast ((intsec.maxx - intsec.minx) / CBlock.voxelSize)
    CNy := cppIntCast ((intsec.maxy - intsec.miny) / CBlock.voxelSize)
    startCxu := cppIntCast ((intsec.minx - CBlock.aabb.minx) / CBlock.voxelSize)
    startCyu := cppIntCast ((intsec.miny - CBlock.aabb.miny) / CBlock.voxelSize)
    startFx := cppIntCast ((intsec.minx - FBlock.aabb.minx) / FBlock.voxelSize)
    startFy := cppIntCast ((intsec.miny - FBlock.aabb.miny) / FBlock.voxelSize) }

/-- One loop nest (one stencil case) of `FieldInterpolation2D`: writes
fine cell `(iy*2 + fy)*FNxB + ix*2 + fx` with the case-`k` blend of the
coarse square whose lower-left cell is `(iy + cy)*CNxB + ix + cx`. -/
def interpCaseFold (CArray : GenericArray ℚ) (CNy CNx CNxB FNxB cy cx fy fx : ℤ)
    (k : Fin 4) (FArray : GenericArray ℚ) : GenericArray ℚ :=
  (loopPairs CNy CNx).foldl
    (fun FA q =>
      FA.set ((q.1 * 2 + fy) * FNxB + q.2 * 2 + fx)
        (interpBlend k
          (CArray.get ((q.1 + cy) * CNxB + q.2 + cx))
          (CArray.get ((q.1 + cy) * CNxB + q.2 + cx + 1))
          (CArray.get ((q.1 + cy) * CNxB + q.2 + cx + CNxB))
          (CArray.get ((q.1 + cy) * CNxB + q.2 + cx + CNxB + 1))))
    FArray

/-- `FieldInterpolation2D`: the four stencil-case loop nests run in
source order (case 0 first, case 3 last) on each component. -/
def FieldInterpolation2D {D : ℕ} (CField FField : GenericField ℚ D)
    (CBlock CBaseBlock FBlock FBaseBlock : BasicBlock2) : GenericField ℚ D :=
  let P := interpParams CBlock CBaseBlock FBlock FBaseBlock
  { _Data := fun iArr =>
      interpCaseFold (CField.getField iArr) P.CNy P.CNx CBlock.Nx FBlock.Nx
        P.startCyu P.startCxu (P.startFy + 1) (P.startFx + 1) 3
        (interpCaseFold (CField.getField iArr) P.CNy P.CNx CBlock.Nx FBlock.Nx
          P.startCyu (P.startCxu - 1) (P.startFy + 1) P.startFx 2
          (interpCaseFold (CField.getField iArr) P.CNy P.CNx CBlock.Nx FBlock.Nx
            (P.startCyu - 1) P.startCxu P.startFy (P.startFx + 1) 1
            (interpCaseFold (CField.getField iArr) P.CNy P.CNx CBlock.Nx FBlock.Nx
              (P.startCyu - 1) (P.startCxu - 1) P.startFy P.startFx 0
              (FField.getField iArr)))) }

/-- Concrete memory for a three-cell example: the allocation holds
`10, 20, 30`; every surrounding heap address holds `0`. -/
def streamMem3 : ℤ → ℤ :=
  fun p => if p = 0 then 10 else if p = 1 then 20 else if p = 2 then 30 else 0

/-- A freshly constructed size-3 `CyclicArray` over `streamMem3`. -/
def streamArr3 : CyclicArray ℤ :=
  CyclicArray.fromMemory 3 streamMem3

/-- A freshly constructed size-1 `CyclicArray` holding `1`. -/
def streamArr1 : CyclicArray ℤ :=
  CyclicArray.fromMemory 1 (fun p => if p = 0 then 1 else 0)

/-- A freshly constructed size-10 `CyclicArray` holding `p` at cell `p`. -/
def streamArr10 : CyclicArray ℤ :=
  CyclicArray.fromMemory 10 (fun p => p)

/-- A healthy size-3 `CyclicArray` state with `shift = -1`, as left by
`rotate(1)` on a fresh array: `remainder`, `start[0]`, `start[1]` are
the `refresh`-derived values for that shift. -/
def rotArr3 : CyclicArray ℤ :=
  { count := 3, data := streamMem3, shift := -1, remainder := 0,
    start0 := 2, start1 := -1, lastOffset := 1 }

/-- A healthy size-2 `CyclicArray` state with `shift = 1` (as left by
`rotate(-1)` on a fresh array): cells hold `100, 101`, the surrounding
heap holds `0`. -/
def shiftedArr2 : CyclicArray ℤ :=
  { count := 2, data := fun p => if p = 0 then 100 else if p = 1 then 101 else 0,
    shift := 1, remainder := 0, start0 := 1, start1 := -1, lastOffset := 0 }

/-- A `D`-component field whose arrays all hold `n` cells of value `v`
(the surrounding heap also reads `v`; the theorems using it only read
allocated cells). -/
def constField (D : ℕ) (n : ℕ) (v : ℚ) : GenericField ℚ D :=
  { _Data := fun _ => { count := n, data := fun _ => v } }

/-- Concrete coarse block: cells `[0,6)²`, voxel size 1, ghost layer of
one coarse voxel around its base block. -/
def cBlockEx : BasicBlock2 :=
  { aabb := { minx := 0, miny := 0, maxx := 6, maxy := 6 }, voxelSize := 1, Nx := 6, Ny := 6 }

/-- Base (ghost-free) extent of `cBlockEx`. -/
def cBaseBlockEx : BasicBlock2 :=
  { aabb := { minx := 1, miny := 1, maxx := 5, maxy := 5 }, voxelSize := 1, Nx := 4, Ny := 4 }

/-- Concrete fine block at half the voxel size, ghost layer of one
fine voxel around its base block. -/
def fBlockEx : BasicBlock2 :=
  { aabb := { minx := 5 / 2, miny := 5 / 2, maxx := 11 / 2, maxy := 11 / 2 },
    voxelSize := 1 / 2, Nx := 6, Ny := 6 }

/-- Base (ghost-free) extent of `fBlockEx`; it covers the coarse cells
`[3,5)²` of `cBlockEx`. -/
def fBaseBlockEx : BasicBlock2 :=
  { aabb := { minx := 3, miny := 3, maxx := 5, maxy := 5 }, voxelSize := 1 / 2, Nx := 4, Ny := 4 }

/-- Concrete same-level source block for `FieldCopy2D`. -/
def fromBlockEx : BasicBlock2 :=
  { aabb := { minx := 0, miny := 0, maxx := 4, maxy := 4 }, voxelSize := 1, Nx := 4, Ny := 4 }

/-- Base extent of `fromBlockEx`. -/
def fromBaseBlockEx : BasicBlock2 :=
  { aabb := { minx := 1, miny := 1, maxx := 3, maxy := 3 }, voxelSize := 1, Nx := 2, Ny := 2 }

/-- Concrete same-level destination block for `FieldCopy2D`. -/
def toBlockEx : BasicBlock2 :=
  { aabb := { minx := 1, miny := 1, maxx := 5, maxy := 5 }, voxelSize := 1, Nx := 4, Ny := 4 }

/-- Base extent of `toBlockEx`; its intersection with
`fromBaseBlockEx` is the unit square `[2,3)²`. -/
def toBaseBlockEx : BasicBlock2 :=
  { aabb := { minx := 2, miny := 2, maxx := 4, maxy := 4 }, voxelSize := 1, Nx := 2, Ny := 2 }

namespace CyclicArray

variable {T : Type}

theorem refresh_count (a : CyclicArray T) : (refresh a).count = a.count := by
  unfold refresh; split <;> rfl

theorem refresh_data (a : CyclicArray T) : (refresh a).data = a.data := by
  unfold refresh; split <;> rfl

theorem refresh_shift (a : CyclicArray T) : (refresh a).shift = a.shift := by
  unfold refresh; split <;> rfl

theorem refresh_lastOffset (a : CyclicArray T) : (refresh a).lastOffset = a.lastOffset := by
  unfold refresh; split <;> rfl

theorem refresh_idem (a : CyclicArray T) : refresh (refresh a) = refresh a := by
  unfold refresh
  split <;> simp

/-- Adding the modulus on the left does not change an integer remainder. -/
theorem add_n_emod (x n : ℤ) : (x + n) % n = x % n := by
  have h := Int.add_mul_emod_self_left x n 1
  rw [mul_one] at h
  exact h

/-- Subtracting the modulus does not change an integer remainder. -/
theorem sub_n_emod (x n : ℤ) : (x - n) % n = x % n := by
  have h := Int.add_mul_emod_self_left x n (-1)
  have e : x + n * (-1) = x - n := by ring
  rw [e] at h
  exact h

theorem remainder_of_refreshed {a : CyclicArray T} (h : a.refresh = a) (hσ : 0 ≤ a.shift) :
    a.remainder = (a.count : ℤ) - a.shift - 1 := by
  conv_lhs => rw [← h]
  simp [refresh, hσ]

theorem start0_of_refreshed {a : CyclicArray T} (h : a.refresh = a) (hσ : 0 ≤ a.shift) :
    a.start0 = a.shift := by
  conv_lhs => rw [← h]
  simp [refresh, hσ]

theorem start1_of_refreshed {a : CyclicArray T} (h : a.refresh = a) (hσ : 0 ≤ a.shift) :
    a.start1 = a.shift - (a.count : ℤ) := by
  conv_lhs => rw [← h]
  simp [refresh, hσ]

theorem remainder_of_refreshed_neg {a : CyclicArray T} (h : a.refresh = a)
    (hσ : ¬ 0 ≤ a.shift) : a.remainder = -a.shift - 1 := by
  conv_lhs => rw [← h]
  simp [refresh, hσ]

theorem start0_of_refreshed_neg {a : CyclicArray T} (h : a.refresh = a)
    (hσ : ¬ 0 ≤ a.shift) : a.start0 = (a.count : ℤ) + a.shift := by
  conv_lhs => rw [← h]
  simp [refresh, hσ]

theorem start1_of_refreshed_neg {a : CyclicArray T} (h : a.refresh = a)
    (hσ : ¬ 0 ≤ a.shift) : a.start1 = a.shift := by
  conv_lhs => rw [← h]
  simp [refresh, hσ]

/-- Segment-pointer resolution computes the canonical circular address:
in a healthy state, the address picked by the `j > remainder` test for
a logical position `0 ≤ j < count` is `(j + shift) mod count`. -/
theorem resolve_eq {a : CyclicArray T} (ha : Valid a) {j : ℤ}
    (h0 : 0 ≤ j) (h1 : j < (a.count : ℤ)) :
    a.resolve j = (j + a.shift) % (a.count : ℤ) := by
  obtain ⟨hc, hlo, hhi, href⟩ := ha
  unfold resolve
  by_cases hσ : 0 ≤ a.shift
  · rw [remainder_of_refreshed href hσ, start0_of_refreshed href hσ,
        start1_of_refreshed href hσ]
    by_cases hbr : j > (a.count : ℤ) - a.shift - 1
    · rw [if_pos hbr]
      have e1 : (j + a.shift) % (a.count : ℤ)
          = (j + a.shift - (a.count : ℤ)) % (a.count : ℤ) := (sub_n_emod _ _).symm
      have e3 : (j + a.shift - (a.count : ℤ)) % (a.count : ℤ)
          = j + a.shift - (a.count : ℤ) :=
        Int.emod_eq_of_lt (by omega) (by omega)
      rw [e1, e3]; ring
    · rw [if_neg hbr]
      have e3 : (j + a.shift) % (a.count : ℤ) = j + a.shift :=
        Int.emod_eq_of_lt (by omega) (by omega)
      omega
  · rw [remainder_of_refreshed_neg href hσ, start0_of_refreshed_neg href hσ,
        start1_of_refreshed_neg href hσ]
    by_cases hbr : j > -a.shift - 1
    · rw [if_pos hbr]
      have e3 : (j + a.shift) % (a.count : ℤ) = j + a.shift :=
        Int.emod_eq_of_lt (by omega) (by omega)
      omega
    · rw [if_neg hbr]
      have e1 : (j + a.shift) % (a.count : ℤ)
          = (j + a.shift + (a.count : ℤ)) % (a.count : ℤ) := (add_n_emod _ _).symm
      have e3 : (j + a.shift + (a.count : ℤ)) % (a.count : ℤ)
          = j + a.shift + (a.count : ℤ) :=
        Int.emod_eq_of_lt (by omega) (by omega)
      rw [e1, e3]; ring

/-- In a healthy state `get i` reads physical cell `(i + shift) mod count`. -/
theorem get_eq_data_emod {a : CyclicArray T} (ha : Valid a) {i : ℕ} (hi : i < a.count) :
    get a i = a.data (((i : ℤ) + a.shift) % (a.count : ℤ)) := by
  unfold get
  rw [resolve_eq ha (Int.ofNat_nonneg i) (by exact_mod_cast hi)]

theorem rotate_count (a : CyclicArray T) (o : ℤ) : (rotate a o).count = a.count := by
  unfold rotate; rw [refresh_count]

theorem rotate_data (a : CyclicArray T) (o : ℤ) : (rotate a o).data = a.data := by
  unfold rotate; rw [refresh_data]

theorem rotate_lastOffset (a : CyclicArray T) (o : ℤ) : (rotate a o).lastOffset = o := by
  unfold rotate; rw [refresh_lastOffset]

theorem rotate_shift (a : CyclicArray T) (o : ℤ) :
    (rotate a o).shift =
      (if a.shift - o ≥ (a.count : ℤ) then a.shift - o - a.count
       else if a.shift - o ≤ -(a.count : ℤ) then a.shift - o + a.count
       else a.shift - o) := by
  unfold rotate; rw [refresh_shift]

/-- After `rotate(offset)` the shift is congruent to `shift - offset`. -/
theorem rotate_shift_emod (a : CyclicArray T) (o : ℤ) :
    (rotate a o).shift % (a.count : ℤ) = (a.shift - o) % (a.count : ℤ) := by
  rw [rotate_shift]
  split_ifs
  · exact sub_n_emod _ _
  · exact add_n_emod _ _
  · rfl

/-- `rotate` with a single-period offset keeps the state healthy. -/
theorem rotate_valid {a : CyclicArray T} (ha : Valid a) (o : ℤ)
    (ho1 : -(a.count : ℤ) ≤ o) (ho2 : o ≤ (a.count : ℤ)) : Valid (rotate a o) := by
  obtain ⟨hc, hlo, hhi, _⟩ := ha
  refine ⟨?_, ?_, ?_, ?_⟩
  · rw [rotate_count]; exact hc
  · rw [rotate_count, rotate_shift]
    split_ifs <;> omega
  · rw [rotate_count, rotate_shift]
    split_ifs <;> omega
  · unfold rotate
    exact refresh_idem _

theorem emod_add_congr {n b c : ℤ} (a : ℤ) (h : b % n = c % n) :
    (a + b) % n = (a + c) % n := by
  rw [Int.add_emod a b, h, ← Int.add_emod]

theorem emod_sub_congr {n b c : ℤ} (a : ℤ) (h : b % n = c % n) :
    (a - b) % n = (a - c) % n := by
  rw [Int.sub_emod a b, h, ← Int.sub_emod]

/-- Reading after a healthy single-period rotation reads physical cell
`(i + shift - offset) mod count` of the unchanged buffer. -/
theorem get_rotate_eq {a : CyclicArray T} (ha : Valid a) (o : ℤ)
    (ho1 : -(a.count : ℤ) ≤ o) (ho2 : o ≤ (a.count : ℤ)) (i : ℕ) (hi : i < a.count) :
    get (rotate a o) i = a.data (((i : ℤ) + a.shift - o) % (a.count : ℤ)) := by
  have hv := rotate_valid ha o ho1 ho2
  have hcnt := rotate_count a o
  rw [get_eq_data_emod hv (by rw [hcnt]; exact hi), rotate_data, hcnt]
  congr 1
  have h1 : ((i : ℤ) + (rotate a o).shift) % (a.count : ℤ)
      = ((i : ℤ) + (a.shift - o)) % (a.count : ℤ) :=
    emod_add_congr _ (rotate_shift_emod a o)
  rw [h1]
  congr 1
  ring

/-- The constructor leaves a fresh array in a healthy state. -/
theorem fromMemory_valid {size : ℕ} (h : 1 ≤ size) (f : ℤ → T) :
    Valid (fromMemory size f) := by
  refine ⟨?_, ?_, ?_, refresh_idem _⟩
  · unfold fromMemory; rw [refresh_count]; exact h
  · unfold fromMemory; rw [refresh_count, refresh_shift]
    show -((size : ℕ) : ℤ) < 0
    omega
  · unfold fromMemory; rw [refresh_count, refresh_shift]
    show (0 : ℤ) < ((size : ℕ) : ℤ)
    omega

end CyclicArray

namespace GenericArray

theorem get_set_self (A : GenericArray ℚ) (p : ℤ) (v : ℚ) : (A.set p v).get p = v :=
  Function.update_same _ _ _

theorem get_set_of_ne (A : GenericArray ℚ) {p r : ℤ} (h : r ≠ p) (v : ℚ) :
    (A.set p v).get r = A.get r :=
  Function.update_noteq h _ _

theorem count_set (A : GenericArray ℚ) (p : ℤ) (v : ℚ) : (A.set p v).count = A.count :=
  rfl

end GenericArray

/-- A fold of writes keeps the element count. -/
theorem foldl_set_count (K : ℤ × ℤ → ℤ) (V : ℤ × ℤ → ℚ) :
    ∀ (l : List (ℤ × ℤ)) (A : GenericArray ℚ),
      (l.foldl (fun B q => B.set (K q) (V q)) A).count = A.count := by
  intro l
  induction l with
  | nil => intro A; rfl
  | cons a t ih =>
    intro A
    show (t.foldl _ (A.set (K a) (V a))).count = A.count
    rw [ih]
    rfl

/-- A fold of writes leaves every address no iteration targets
unchanged. -/
theorem foldl_set_get_of_notMem (K : ℤ × ℤ → ℤ) (V : ℤ × ℤ → ℚ) (p : ℤ) :
    ∀ (l : List (ℤ × ℤ)) (A : GenericArray ℚ), (∀ q ∈ l, K q ≠ p) →
      (l.foldl (fun B q => B.set (K q) (V q)) A).get p = A.get p := by
  intro l
  induction l with
  | nil => intro A _; rfl
  | cons a t ih =>
    intro A h
    show (t.foldl _ (A.set (K a) (V a))).get p = A.get p
    rw [ih _ (fun q hq => h q (List.mem_cons_of_mem _ hq))]
    exact GenericArray.get_set_of_ne A (Ne.symm (h a (List.mem_cons_self a t))) _

/-- A fold of writes stores, at the target of an iteration `q0` no
other iteration collides with, exactly the value of `q0` (the value
does not depend on the accumulator, so duplicates of `q0` are
harmless). -/
theorem foldl_set_get_of_mem (K : ℤ × ℤ → ℤ) (V : ℤ × ℤ → ℚ) (p : ℤ) (q0 : ℤ × ℤ)
    (hK : K q0 = p) :
    ∀ (l : List (ℤ × ℤ)) (A : GenericArray ℚ), q0 ∈ l →
      (∀ q ∈ l, K q = p → q = q0) →
      (l.foldl (fun B q => B.set (K q) (V q)) A).get p = V q0 := by
  intro l
  induction l with
  | nil => intro A h0 _; exact absurd h0 (List.not_mem_nil q0)
  | cons a t ih =>
    intro A h0 huniq
    show (t.foldl _ (A.set (K a) (V a))).get p = V q0
    by_cases hmem : ∃ q, q ∈ t ∧ K q = p
    · obtain ⟨q1, hq1, hKq1⟩ := hmem
      have he : q1 = q0 := huniq q1 (List.mem_cons_of_mem _ hq1) hKq1
      exact ih _ (he ▸ hq1) (fun q hq h => huniq q (List.mem_cons_of_mem _ hq) h)
    · push_neg at hmem
      rw [foldl_set_get_of_notMem K V p t _ hmem]
      have ha0 : a = q0 := by
        rcases List.mem_cons.mp h0 with h | h
        · exact h.symm
        · exact absurd hK (hmem q0 h)
      subst ha0
      rw [hK]
      exact GenericArray.get_set_self A p (V a)

/-- Two folds with the same targets and pointwise-equal values from
the same start coincide. -/
theorem foldl_set_congr (K : ℤ × ℤ → ℤ) (V1 V2 : ℤ × ℤ → ℚ) :
    ∀ (l : List (ℤ × ℤ)) (A : GenericArray ℚ), (∀ q ∈ l, V1 q = V2 q) →
      l.foldl (fun B q => B.set (K q) (V1 q)) A
        = l.foldl (fun B q => B.set (K q) (V2 q)) A := by
  intro l
  induction l with
  | nil => intro A _; rfl
  | cons a t ih =>
    intro A h
    show t.foldl _ (A.set (K a) (V1 a)) = t.foldl _ (A.set (K a) (V2 a))
    rw [h a (List.mem_cons_self a t)]
    exact ih _ (fun q hq => h q (List.mem_cons_of_mem _ hq))

/-- Membership in the doubly nested loop iteration space. -/
theorem mem_loopPairs (ny nx : ℤ) (q : ℤ × ℤ) :
    q ∈ loopPairs ny nx ↔ 0 ≤ q.1 ∧ q.1 < ny ∧ 0 ≤ q.2 ∧ q.2 < nx := by
  obtain ⟨qy, qx⟩ := q
  constructor
  · intro h
    obtain ⟨iy, hiy, hmem⟩ := List.mem_flatMap.mp h
    obtain ⟨ix, hix, heq⟩ := List.mem_map.mp hmem
    rw [List.mem_range] at hiy hix
    obtain ⟨e1, e2⟩ := Prod.ext_iff.mp heq
    refine ⟨?_, ?_, ?_, ?_⟩ <;> omega
  · rintro ⟨h1, h2, h3, h4⟩
    apply List.mem_flatMap.mpr
    refine ⟨qy.toNat, List.mem_range.mpr (by omega), ?_⟩
    apply List.mem_map.mpr
    refine ⟨qx.toNat, List.mem_range.mpr (by omega), ?_⟩
    show ((qy.toNat : ℤ), (qx.toNat : ℤ)) = (qy, qx)
    rw [Int.toNat_of_nonneg h1, Int.toNat_of_nonneg h3]

/-- Row-column decomposition of a linear index is unique when the
column offsets lie inside one row. -/
theorem row_col_inj {N r1 c1 r2 c2 : ℤ} (h1 : 0 ≤ c1) (h2 : c1 < N) (h3 : 0 ≤ c2)
    (h4 : c2 < N) (he : r1 * N + c1 = r2 * N + c2) : r1 = r2 ∧ c1 = c2 := by
  have hN : 0 < N := lt_of_le_of_lt h1 h2
  have hd : (r1 - r2) * N = c2 - c1 := by linear_combination he
  have hr : r1 = r2 := by
    by_contra hne
    rcases lt_or_gt_of_ne hne with hlt | hgt
    · have h5 : r1 - r2 ≤ -1 := by omega
      have h6 : (r1 - r2) * N ≤ (-1) * N := mul_le_mul_of_nonneg_right h5 (le_of_lt hN)
      have h7 : (-1 : ℤ) * N = -N := by ring
      linarith
    · have h5 : (1 : ℤ) ≤ r1 - r2 := by omega
      have h6 : (1 : ℤ) * N ≤ (r1 - r2) * N := mul_le_mul_of_nonneg_right h5 (le_of_lt hN)
      have h7 : (1 : ℤ) * N = N := by ring
      linarith
  refine ⟨hr, ?_⟩
  have h8 : (r1 - r2) * N = 0 := by rw [hr]; ring
  have h9 : c2 - c1 = 0 := by linarith
  omega

/-- `static_cast<int>` of a value that is exactly an integer returns
that integer. -/
theorem cppIntCast_eq_of_intCast {q : ℚ} {k : ℤ} (h : q = (k : ℚ)) : cppIntCast q = k := by
  subst h
  unfold cppIntCast
  rw [Rat.num_intCast, Rat.den_intCast]
  exact Int.tdiv_one k

/-- The translation prologue of `FieldCopy2D` on the concrete
same-level block pair. -/
theorem copyParamsEx :
    copyParams fromBlockEx fromBaseBlockEx toBlockEx toBaseBlockEx
      = { Nx := 1, Ny := 1, startFromx := 2, startFromy := 2, startTox := 1, startToy := 1 } := by
  unfold copyParams getIntersection fromBlockEx fromBaseBlockEx toBlockEx toBaseBlockEx
  simp only [CopyParams.mk.injEq]
  refine ⟨?_, ?_, ?_, ?_, ?_, ?_⟩ <;>
    (apply cppIntCast_eq_of_intCast; simp only [max_def, min_def]; norm_num)

/-- The translation prologue of `FieldAverage2D` on the concrete
coarse/fine block pair. -/
theorem avgParamsEx :
    avgParams fBlockEx fBaseBlockEx cBlockEx cBaseBlockEx
      = { CNx := 2, CNy := 2, startCx := 3, startCy := 3, startFx := 1, startFy := 1 } := by
  unfold avgParams getIntersection fBlockEx fBaseBlockEx cBlockEx cBaseBlockEx
  simp only [AvgParams.mk.injEq]
  refine ⟨?_, ?_, ?_, ?_, ?_, ?_⟩ <;>
    (apply cppIntCast_eq_of_intCast; simp only [max_def, min_def]; norm_num)

/-- The translation prologue of `FieldInterpolation2D` on the concrete
coarse/fine block pair. -/
theorem interpParamsEx :
    interpParams cBlockEx cBaseBlockEx fBlockEx fBaseBlockEx
      = { CNx := 2, CNy := 2, startCxu := 3, startCyu := 3, startFx := 1, startFy := 1 } := by
  unfold interpParams getIntersection fBlockEx fBaseBlockEx cBlockEx cBaseBlockEx
  simp only [InterpParams.mk.injEq]
  refine ⟨?_, ?_, ?_, ?_, ?_, ?_⟩ <;>
    (apply cppIntCast_eq_of_intCast; simp only [max_def, min_def]; norm_num)

/-- One interpolation loop nest preserves the fine array's count. -/
theorem interpCaseFold_count (CArray : GenericArray ℚ) (CNy CNx CNxB FNxB cy cx fy fx : ℤ)
    (k : Fin 4) (FArray : GenericArray ℚ) :
    (interpCaseFold CArray CNy CNx CNxB FNxB cy cx fy fx k FArray).count = FArray.count := by
  unfold interpCaseFold
  exact foldl_set_count _ _ _ _

/-- One interpolation loop nest leaves untargeted fine cells alone. -/
theorem interpCaseFold_get_of_notMem (CArray : GenericArray ℚ)
    (CNy CNx CNxB FNxB cy cx fy fx : ℤ) (k : Fin 4) (FArray : GenericArray ℚ) (p : ℤ)
    (h : ∀ qy qx : ℤ, 0 ≤ qy → qy < CNy → 0 ≤ qx → qx < CNx →
        (qy * 2 + fy) * FNxB + qx * 2 + fx ≠ p) :
    (interpCaseFold CArray CNy CNx CNxB FNxB cy cx fy fx k FArray).get p = FArray.get p := by
  unfold interpCaseFold
  apply foldl_set_get_of_notMem
  intro q hq
  rw [mem_loopPairs] at hq
  exact h q.1 q.2 hq.1 hq.2.1 hq.2.2.1 hq.2.2.2

/-- One interpolation loop nest writes, at the fine target of `(iy, ix)`,
the case blend of the coarse square based at `(iy + cy, ix + cx)`. -/
theorem interpCaseFold_get_of_mem (CArray : GenericArray ℚ)
    (CNy CNx CNxB FNxB cy cx fy fx : ℤ) (k : Fin 4) (FArray : GenericArray ℚ) (iy ix : ℤ)
    (h1 : 0 ≤ iy) (h2 : iy < CNy) (h3 : 0 ≤ ix) (h4 : ix < CNx)
    (huniq : ∀ qy qx : ℤ, 0 ≤ qy → qy < CNy → 0 ≤ qx → qx < CNx →
        (qy * 2 + fy) * FNxB + qx * 2 + fx = (iy * 2 + fy) * FNxB + ix * 2 + fx →
        qy = iy ∧ qx = ix) :
    (interpCaseFold CArray CNy CNx CNxB FNxB cy cx fy fx k FArray).get
        ((iy * 2 + fy) * FNxB + ix * 2 + fx)
      = interpBlend k
          (CArray.get ((iy + cy) * CNxB + ix + cx))
          (CArray.get ((iy + cy) * CNxB + ix + cx + 1))
          (CArray.get ((iy + cy) * CNxB + ix + cx + CNxB))
          (CArray.get ((iy + cy) * CNxB + ix + cx + CNxB + 1)) := by
  unfold interpCaseFold
  exact foldl_set_get_of_mem
    (fun q => (q.1 * 2 + fy) * FNxB + q.2 * 2 + fx)
    (fun q => interpBlend k
      (CArray.get ((q.1 + cy) * CNxB + q.2 + cx))
      (CArray.get ((q.1 + cy) * CNxB + q.2 + cx + 1))
      (CArray.get ((q.1 + cy) * CNxB + q.2 + cx + CNxB))
      (CArray.get ((q.1 + cy) * CNxB + q.2 + cx + CNxB + 1)))
    ((iy * 2 + fy) * FNxB + ix * 2 + fx) (iy, ix) rfl
    (loopPairs CNy CNx) FArray
    ((mem_loopPairs _ _ _).mpr ⟨h1, h2, h3, h4⟩)
    (by
      intro q hq hKq
      obtain ⟨qy, qx⟩ := q
      rw [mem_loopPairs] at hq
      obtain ⟨e1, e2⟩ := huniq qy qx hq.1 hq.2.1 hq.2.2.1 hq.2.2.2 hKq
      exact Prod.ext_iff.mpr ⟨e1, e2⟩)

/-- Congruence for one interpolation loop nest: equal input fine
arrays and pointwise-equal blends over the rectangle give equal
results. -/
theorem interpCaseFold_congr (C1 C2 : GenericArray ℚ) (CNy CNx CNxB FNxB cy cx fy fx : ℤ)
    (k : Fin 4) (FA1 FA2 : GenericArray ℚ) (hFA : FA1 = FA2)
    (hV : ∀ qy qx : ℤ, 0 ≤ qy → qy < CNy → 0 ≤ qx → qx < CNx →
        interpBlend k
            (C1.get ((qy + cy) * CNxB + qx + cx))
            (C1.get ((qy + cy) * CNxB + qx + cx + 1))
            (C1.get ((qy + cy) * CNxB + qx + cx + CNxB))
            (C1.get ((qy + cy) * CNxB + qx + cx + CNxB + 1))
          = interpBlend k
              (C2.get ((qy + cy) * CNxB + qx + cx))
              (C2.get ((qy + cy) * CNxB + qx + cx + 1))
              (C2.get ((qy + cy) * CNxB + qx + cx + CNxB))
              (C2.get ((qy + cy) * CNxB + qx + cx + CNxB + 1))) :
    interpCaseFold C1 CNy CNx CNxB FNxB cy cx fy fx k FA1
      = interpCaseFold C2 CNy CNx CNxB FNxB cy cx fy fx k FA2 := by
  subst hFA
  unfold interpCaseFold
  apply foldl_set_congr
  intro q hq
  rw [mem_loopPairs] at hq
  exact hV q.1 q.2 hq.1 hq.2.1 hq.2.2.1 hq.2.2.2

/-- Reversing a four-element multiset. -/
theorem multiset4_reverse {α : Type} (a b c d : α) :
    ({a, b, c, d} : Multiset α) = ({d, b, c, a} : Multiset α) := by
  show a ::ₘ b ::ₘ c ::ₘ d ::ₘ 0 = d ::ₘ b ::ₘ c ::ₘ a ::ₘ 0
  rw [Multiset.cons_swap c d, Multiset.cons_swap b d, Multiset.cons_swap a d,
      Multiset.cons_swap a b, Multiset.cons_swap a c]

/-- The rearrangement matching interpolation stencil case 1. -/
theorem multiset4_rot1 {α : Type} (x y z : α) :
    ({x, y, z, x} : Multiset α) = ({z, x, x, y} : Multiset α) := by
  show x ::ₘ y ::ₘ z ::ₘ x ::ₘ 0 = z ::ₘ x ::ₘ x ::ₘ y ::ₘ 0
  rw [Multiset.cons_swap y z, Multiset.cons_swap x z, Multiset.cons_swap y x]

/-- The rearrangement matching interpolation stencil case 2. -/
theorem multiset4_rot2 {α : Type} (x y z : α) :
    ({x, z, y, x} : Multiset α) = ({z, x, x, y} : Multiset α) := by
  show x ::ₘ z ::ₘ y ::ₘ x ::ₘ 0 = z ::ₘ x ::ₘ x ::ₘ y ::ₘ 0
  rw [Multiset.cons_swap x z, Multiset.cons_swap y x]

/-- `FieldInterpolation2D` on the concrete coarse/fine block pair,
with the translation quantities inlined. -/
theorem interpEx_unfold {D : ℕ} (CField FField : GenericField ℚ D) (d : Fin D) :
    (FieldInterpolation2D CField FField cBlockEx cBaseBlockEx fBlockEx
        fBaseBlockEx).getField d
      = interpCaseFold (CField.getField d) 2 2 6 6 3 3 2 2 3
          (interpCaseFold (CField.getField d) 2 2 6 6 3 2 2 1 2
            (interpCaseFold (CField.getField d) 2 2 6 6 2 3 1 2 1
              (interpCaseFold (CField.getField d) 2 2 6 6 2 2 1 1 0
                (FField.getField d)))) := by
  simp only [FieldInterpolation2D, GenericField.getField]
  rw [interpParamsEx]
  norm_num [cBlockEx, fBlockEx]

/-- `FieldAverage2D` on the concrete coarse/fine block pair, with the
translation quantities inlined. -/
theorem avgEx_unfold {D : ℕ} (FField CField : GenericField ℚ D) (d : Fin D) :
    (FieldAverage2D FField CField fBlockEx fBaseBlockEx cBlockEx
        cBaseBlockEx).getField d
      = (loopPairs 2 2).foldl
          (fun B q =>
            B.set ((q.1 + 3) * 6 + q.2 + 3)
              (((FField.getField d).get ((q.1 * 2 + 1) * 6 + q.2 * 2 + 1)
                + (FField.getField d).get ((q.1 * 2 + 1) * 6 + q.2 * 2 + 1 + 1)
                + (FField.getField d).get ((q.1 * 2 + 1) * 6 + q.2 * 2 + 1 + 6)
                + (FField.getField d).get ((q.1 * 2 + 1) * 6 + q.2 * 2 + 1 + 6 + 1))
                * (0.25 : ℚ)))
          (CField.getField d) := by
  simp only [FieldAverage2D, GenericField.getField]
  rw [avgParamsEx]
  norm_num [cBlockEx, fBlockEx]

/-- After interpolating a coarse field that is constant `c` on the
whole 6x6 coarse allocation, every fine cell of the written 4x4 fine
rectangle (rows and columns 1..4) holds exactly `c`. -/
theorem interpEx_const_fine {D : ℕ} (CField FField : GenericField ℚ D) (c : ℚ)
    (hconst : ∀ (d : Fin D) (p : ℤ), 0 ≤ p → p < 36 → (CField.getField d).get p = c)
    (d : Fin D) (iy ix ry sx : ℤ) (h1 : 0 ≤ iy) (h2 : iy < 2) (h3 : 0 ≤ ix) (h4 : ix < 2)
    (hry : ry = 1 ∨ ry = 2) (hsx : sx = 1 ∨ sx = 2) :
    ((FieldInterpolation2D CField FField cBlockEx cBaseBlockEx fBlockEx
        fBaseBlockEx).getField d).get ((iy * 2 + ry) * 6 + ix * 2 + sx) = c := by
  rw [interpEx_unfold]
  rcases hry with h | h <;> rcases hsx with h' | h' <;> subst h <;> subst h'
  · rw [interpCaseFold_get_of_notMem _ _ _ _ _ _ _ _ _ _ _ _
        (by intro qy qx e1 e2 e3 e4; omega),
      interpCaseFold_get_of_notMem _ _ _ _ _ _ _ _ _ _ _ _
        (by intro qy qx e1 e2 e3 e4; omega),
      interpCaseFold_get_of_notMem _ _ _ _ _ _ _ _ _ _ _ _
        (by intro qy qx e1 e2 e3 e4; omega),
      interpCaseFold_get_of_mem _ _ _ _ _ _ _ _ _ _ _ iy ix h1 h2 h3 h4
        (by intro qy qx e1 e2 e3 e4 he; omega),
      hconst d _ (by omega) (by omega), hconst d _ (by omega) (by omega),
      hconst d _ (by omega) (by omega), hconst d _ (by omega) (by omega)]
    show c * (0.0625 : ℚ) + c * (0.1875 : ℚ) + c * (0.1875 : ℚ) + c * (0.5625 : ℚ) = c
    norm_num
    ring
  · rw [interpCaseFold_get_of_notMem _ _ _ _ _ _ _ _ _ _ _ _
        (by intro qy qx e1 e2 e3 e4; omega),
      interpCaseFold_get_of_notMem _ _ _ _ _ _ _ _ _ _ _ _
        (by intro qy qx e1 e2 e3 e4; omega),
      interpCaseFold_get_of_mem _ _ _ _ _ _ _ _ _ _ _ iy ix h1 h2 h3 h4
        (by intro qy qx e1 e2 e3 e4 he; omega),
      hconst d _ (by omega) (by omega), hconst d _ (by omega) (by omega),
      hconst d _ (by omega) (by omega), hconst d _ (by omega) (by omega)]
    show c * (0.1875 : ℚ) + c * (0.0625 : ℚ) + c * (0.5625 : ℚ) + c * (0.1875 : ℚ) = c
    norm_num
    ring
  · rw [interpCaseFold_get_of_notMem _ _ _ _ _ _ _ _ _ _ _ _
        (by intro qy qx e1 e2 e3 e4; omega),
      interpCaseFold_get_of_mem _ _ _ _ _ _ _ _ _ _ _ iy ix h1 h2 h3 h4
        (by intro qy qx e1 e2 e3 e4 he; omega),
      hconst d _ (by omega) (by omega), hconst d _ (by omega) (by omega),
      hconst d _ (by omega) (by omega), hconst d _ (by omega) (by omega)]
    show c * (0.1875 : ℚ) + c * (0.5625 : ℚ) + c * (0.0625 : ℚ) + c * (0.1875 : ℚ) = c
    norm_num
    ring
  · rw [interpCaseFold_get_of_mem _ _ _ _ _ _ _ _ _ _ _ iy ix h1 h2 h3 h4
        (by intro qy qx e1 e2 e3 e4 he; omega),
      hconst d _ (by omega) (by omega), hconst d _ (by omega) (by omega),
      hconst d _ (by omega) (by omega), hconst d _ (by omega) (by omega)]
    show c * (0.5625 : ℚ) + c * (0.1875 : ℚ) + c * (0.1875 : ℚ) + c * (0.0625 : ℚ) = c
    norm_num
    ring

/-- A linear index with in-range row and column lies inside the
`rows * rowLength` allocation. -/
theorem id_in_alloc {Nx r c Nyy : ℤ} (hx : 0 < Nx) (hr1 : 0 ≤ r) (hr2 : r < Nyy)
    (hc1 : 0 ≤ c) (hc2 : c < Nx) : 0 ≤ r * Nx + c ∧ r * Nx + c < Nyy * Nx := by
  constructor
  · have h0 : 0 ≤ r * Nx := mul_nonneg hr1 (le_of_lt hx)
    linarith
  · have h1 : r + 1 ≤ Nyy := by omega
    have h2 : (r + 1) * Nx ≤ Nyy * Nx := mul_le_mul_of_nonneg_right h1 (le_of_lt hx)
    have h3 : (r + 1) * Nx = r * Nx + Nx := by ring
    linarith

/-- Variant of `id_in_alloc` taking the linear index through an
explicit decomposition equation. -/
theorem id_in_alloc' {Nx r c Nyy p : ℤ} (hx : 0 < Nx) (hr1 : 0 ≤ r) (hr2 : r < Nyy)
    (hc1 : 0 ≤ c) (hc2 : c < Nx) (hp : p = r * Nx + c) : 0 ≤ p ∧ p < Nyy * Nx := by
  obtain ⟨g1, g2⟩ := id_in_alloc hx hr1 hr2 hc1 hc2
  constructor <;> linarith

/-- C1: for a `CyclicArray` of size `N ≥ 1` whose shift lies in
`(-N, N)` and whose derived fields are `refresh`-consistent,
`operator[]` at a logical index `i < N` returns the element at
physical buffer position `(i + shift) mod N`, and the access is
resolved purely by comparing `i` with `remainder` and offsetting one
of the two segment start pointers (the second conjunct is literally
the access expression: no division or modulo appears on this path). -/
theorem cyclicGet_physical_cell {T : Type} (a : CyclicArray T)
    (hN : 1 ≤ a.count) (hs1 : -(a.count : ℤ) < a.shift) (hs2 : a.shift < (a.count : ℤ))
    (href : a.refresh = a) (i : ℕ) (hi : i < a.count) :
    CyclicArray.get a i = a.data (((i : ℤ) + a.shift) % (a.count : ℤ)) ∧
    CyclicArray.get a i
      = a.data (if (i : ℤ) > a.remainder then a.start1 + (i : ℤ) else a.start0 + (i : ℤ)) :=
  ⟨CyclicArray.get_eq_data_emod ⟨hN, hs1, hs2, href⟩ hi, rfl⟩

/-- Witness for C1 at the healthy shifted size-3 state `rotArr3`
(`shift = -1`); index 1 reads physical cell `(1 - 1) mod 3 = 0`. -/
theorem cyclicGet_physical_cell_witness :
    CyclicArray.get rotArr3 1
        = rotArr3.data ((((1 : ℕ) : ℤ) + rotArr3.shift) % (rotArr3.count : ℤ)) ∧
    CyclicArray.get rotArr3 1
        = rotArr3.data
            (if ((1 : ℕ) : ℤ) > rotArr3.remainder then rotArr3.start1 + ((1 : ℕ) : ℤ)
             else rotArr3.start0 + ((1 : ℕ) : ℤ)) :=
  cyclicGet_physical_cell rotArr3 (by decide) (by decide) (by decide) rfl 1 (by decide)

/-- C2: writing `set(i, v)` and immediately reading `get(i)` yields
`v`, in every state (so in particular in every shift state reachable
through `rotate` calls) and at every index: both operations resolve
the same physical address through the same segment-pointer test. -/
theorem cyclicSet_get_roundtrip {T : Type} (a : CyclicArray T) (i : ℕ) (v : T) :
    CyclicArray.get (CyclicArray.set a i v) i = v := by
  show Function.update a.data (a.resolve i) v ((CyclicArray.set a i v).resolve i) = v
  have h : (CyclicArray.set a i v).resolve i = a.resolve i := rfl
  rw [h]
  exact Function.update_same _ _ _

/-- C3 as stated is false: composing `rotate(a)` and `rotate(b)` is
only guaranteed to equal `rotate((a+b) mod N)` for single-period
offsets.  On a fresh size-3 array, `rotate(7)` drives `shift` to `-4`,
outside the wrap range `(-N, N)` (the single conditional correction in
`rotate` cannot recover it), and `rotate(3)` keeps it at `-4`; index 0
then resolves to physical address `-1`, outside the allocation, and
reads heap junk instead of the element that `rotate(1)` exposes. -/
theorem cyclicRotate_compose_counterexample :
    CyclicArray.get (CyclicArray.rotate (CyclicArray.rotate streamArr3 7) 3) 0
      ≠ CyclicArray.get (CyclicArray.rotate streamArr3 ((7 + 3) % (streamArr3.count : ℤ))) 0 := by
  decide

/-- C3 (amended): for offsets `x`, `y` with `|x| ≤ N` and `|y| ≤ N`,
from any healthy state, `rotate(x)` then `rotate(y)` leaves the same
logical content as the single call `rotate((x+y) mod N)`. -/
theorem cyclicRotate_compose {T : Type} (a : CyclicArray T) (ha : CyclicArray.Valid a)
    (x y : ℤ) (hx1 : -(a.count : ℤ) ≤ x) (hx2 : x ≤ (a.count : ℤ))
    (hy1 : -(a.count : ℤ) ≤ y) (hy2 : y ≤ (a.count : ℤ))
    (i : ℕ) (hi : i < a.count) :
    CyclicArray.get (CyclicArray.rotate (CyclicArray.rotate a x) y) i
      = CyclicArray.get (CyclicArray.rotate a ((x + y) % (a.count : ℤ))) i := by
  have hn : (0 : ℤ) < (a.count : ℤ) := by exact_mod_cast ha.1
  have hv1 := CyclicArray.rotate_valid ha x hx1 hx2
  have hc1 := CyclicArray.rotate_count a x
  have hL := CyclicArray.get_rotate_eq hv1 y (by rw [hc1]; exact hy1) (by rw [hc1]; exact hy2)
    i (by rw [hc1]; exact hi)
  rw [CyclicArray.rotate_data, hc1] at hL
  have hm0 : 0 ≤ (x + y) % (a.count : ℤ) := Int.emod_nonneg _ (by omega)
  have hm1 : (x + y) % (a.count : ℤ) < (a.count : ℤ) := Int.emod_lt_of_pos _ hn
  have hR := CyclicArray.get_rotate_eq ha ((x + y) % (a.count : ℤ)) (by omega) (by omega) i hi
  rw [hL, hR]
  congr 1
  have e1 : ((i : ℤ) + (CyclicArray.rotate a x).shift - y) % (a.count : ℤ)
      = ((i : ℤ) + a.shift - x - y) % (a.count : ℤ) := by
    have t1 : (i : ℤ) + (CyclicArray.rotate a x).shift - y
        = ((i : ℤ) - y) + (CyclicArray.rotate a x).shift := by ring
    have t2 : (i : ℤ) + a.shift - x - y = ((i : ℤ) - y) + (a.shift - x) := by ring
    rw [t1, t2]
    exact CyclicArray.emod_add_congr _ (CyclicArray.rotate_shift_emod a x)
  have e2 : ((i : ℤ) + a.shift - (x + y) % (a.count : ℤ)) % (a.count : ℤ)
      = ((i : ℤ) + a.shift - x - y) % (a.count : ℤ) := by
    have h4 : ((x + y) % (a.count : ℤ)) % (a.count : ℤ) = (x + y) % (a.count : ℤ) :=
      Int.emod_emod_of_dvd _ dvd_rfl
    have h5 := CyclicArray.emod_sub_congr ((i : ℤ) + a.shift) h4
    have t3 : (i : ℤ) + a.shift - (x + y) = (i : ℤ) + a.shift - x - y := by ring
    rw [t3] at h5
    exact h5
  rw [e1, e2]

/-- Witness for the amended C3 on the fresh size-3 array with
`x = y = 2`. -/
theorem cyclicRotate_compose_witness :
    CyclicArray.get (CyclicArray.rotate (CyclicArray.rotate streamArr3 2) 2) 0
      = CyclicArray.get (CyclicArray.rotate streamArr3 ((2 + 2) % (streamArr3.count : ℤ))) 0 :=
  cyclicRotate_compose streamArr3 (CyclicArray.fromMemory_valid (by decide) streamMem3)
    2 2 (by decide) (by decide) (by decide) (by decide) 0 (by decide)

/-- C4 as stated is false: `rotate(k·N)` is only content-preserving
for `|k| ≤ 1`.  On a fresh size-1 array, `rotate(3·1)` leaves
`shift = -2` (the single conditional correction cannot bring `-3`
back into `(-1, 1)`), so index 0 resolves to physical address `-1`
and reads heap junk instead of the single element. -/
theorem cyclicRotate_fullPeriod_counterexample :
    CyclicArray.get (CyclicArray.rotate streamArr1 (3 * (streamArr1.count : ℤ))) 0
      ≠ CyclicArray.get streamArr1 0 := by
  decide

/-- C4 (amended): from any healthy state, `rotate(k·N)` for
`k ∈ {-1, 0, 1}` leaves the logical content unchanged; and on any
healthy size-10 array, `rotate(+3)` followed by `rotate(-3)` restores
the pre-rotation value at every index. -/
theorem cyclicRotate_fullPeriod {T : Type} :
    (∀ a : CyclicArray T, CyclicArray.Valid a → ∀ k : ℤ, k = -1 ∨ k = 0 ∨ k = 1 →
      ∀ i : ℕ, i < a.count →
        CyclicArray.get (CyclicArray.rotate a (k * (a.count : ℤ))) i = CyclicArray.get a i) ∧
    (∀ a : CyclicArray T, CyclicArray.Valid a → a.count = 10 → ∀ i : ℕ, i < 10 →
      CyclicArray.get (CyclicArray.rotate (CyclicArray.rotate a 3) (-3)) i
        = CyclicArray.get a i) := by
  constructor
  · intro a ha k hk i hi
    have hb1 : -(a.count : ℤ) ≤ k * (a.count : ℤ) := by rcases hk with h | h | h <;> subst h <;> omega
    have hb2 : k * (a.count : ℤ) ≤ (a.count : ℤ) := by rcases hk with h | h | h <;> subst h <;> omega
    rw [CyclicArray.get_rotate_eq ha (k * (a.count : ℤ)) hb1 hb2 i hi,
      CyclicArray.get_eq_data_emod ha hi]
    congr 1
    have h4 : (k * (a.count : ℤ)) % (a.count : ℤ) = (0 : ℤ) % (a.count : ℤ) := by
      rw [Int.mul_emod_left, Int.zero_emod]
    have h5 := CyclicArray.emod_sub_congr ((i : ℤ) + a.shift) h4
    rw [h5, sub_zero]
  · intro a ha h10 i hi
    have hv1 := CyclicArray.rotate_valid ha 3 (by omega) (by rw [h10]; omega)
    have hc1 := CyclicArray.rotate_count a 3
    have hL := CyclicArray.get_rotate_eq hv1 (-3) (by rw [hc1, h10]; omega)
      (by rw [hc1, h10]; omega) i (by rw [hc1, h10]; exact hi)
    rw [CyclicArray.rotate_data, hc1] at hL
    rw [hL, CyclicArray.get_eq_data_emod ha (by rw [h10]; exact hi)]
    congr 1
    have t1 : (i : ℤ) + (CyclicArray.rotate a 3).shift - (-3)
        = ((i : ℤ) + 3) + (CyclicArray.rotate a 3).shift := by ring
    rw [t1]
    have h5 := CyclicArray.emod_add_congr ((i : ℤ) + 3) (CyclicArray.rotate_shift_emod a 3)
    rw [h5]
    congr 1
    ring

/-- Witness for the amended C4: `k = 1` on the fresh size-3 array, and
the `+3 / -3` round trip on the fresh size-10 array. -/
theorem cyclicRotate_fullPeriod_witness :
    CyclicArray.get (CyclicArray.rotate streamArr3 (1 * (streamArr3.count : ℤ))) 0
        = CyclicArray.get streamArr3 0 ∧
    CyclicArray.get (CyclicArray.rotate (CyclicArray.rotate streamArr10 3) (-3)) 5
        = CyclicArray.get streamArr10 5 :=
  ⟨(@cyclicRotate_fullPeriod ℤ).1 streamArr3
      (CyclicArray.fromMemory_valid (by decide) streamMem3) 1 (by decide) 0 (by decide),
   (@cyclicRotate_fullPeriod ℤ).2 streamArr10
      (CyclicArray.fromMemory_valid (by decide) (fun p => p)) (by decide) 5 (by decide)⟩

/-- C5 as stated is false: `getPrevious` only undoes single-period
offsets.  From the healthy size-2 state with `shift = 1`, `rotate(4)`
wraps `shift` to `-1` but records `lastOffset = 4`; for index 1 the
once-corrected previous index is `1 + 4 - 2 = 3`, which resolves to
physical address `2`, one past the allocation, so `getPrevious(1)`
reads heap junk instead of the pre-rotation `get(1)`. -/
theorem cyclicGetPrevious_counterexample :
    CyclicArray.getPrevious (CyclicArray.rotate shiftedArr2 4) 1
      ≠ CyclicArray.get shiftedArr2 1 := by
  decide

/-- C5 (amended): after `rotate(o)` with `|o| ≤ N` from a healthy
state, `getPrevious(i)` returns, for every `i < N`, the value `get(i)`
returned immediately before the rotation. -/
theorem cyclicGetPrevious_undoes_rotate {T : Type} (a : CyclicArray T)
    (ha : CyclicArray.Valid a) (o : ℤ)
    (ho1 : -(a.count : ℤ) ≤ o) (ho2 : o ≤ (a.count : ℤ)) (i : ℕ) (hi : i < a.count) :
    CyclicArray.getPrevious (CyclicArray.rotate a o) i = CyclicArray.get a i := by
  have hn : (0 : ℤ) < (a.count : ℤ) := by exact_mod_cast ha.1
  have hi' : ((i : ℤ)) < (a.count : ℤ) := by exact_mod_cast hi
  have hv := CyclicArray.rotate_valid ha o ho1 ho2
  have main : ∀ P : ℤ, 0 ≤ P → P < (a.count : ℤ) →
      P % (a.count : ℤ) = ((i : ℤ) + o) % (a.count : ℤ) →
      (CyclicArray.rotate a o).resolve P = ((i : ℤ) + a.shift) % (a.count : ℤ) := by
    intro P h0 h1 h2
    have hres := CyclicArray.resolve_eq hv h0 (by rw [CyclicArray.rotate_count]; exact h1)
    rw [CyclicArray.rotate_count] at hres
    rw [hres, Int.add_emod P, h2, CyclicArray.rotate_shift_emod, ← Int.add_emod]
    congr 1
    ring
  unfold CyclicArray.getPrevious
  rw [CyclicArray.rotate_lastOffset, CyclicArray.rotate_count, CyclicArray.rotate_data]
  rw [main _ ?_ ?_ ?_, CyclicArray.get_eq_data_emod ha hi]
  · split_ifs <;> omega
  · split_ifs <;> omega
  · split_ifs with h1 h2
    · exact CyclicArray.add_n_emod _ _
    · exact CyclicArray.sub_n_emod _ _
    · rfl

/-- Witness for the amended C5 on the fresh size-3 array with
offset 1. -/
theorem cyclicGetPrevious_undoes_rotate_witness :
    CyclicArray.getPrevious (CyclicArray.rotate streamArr3 1) 0
      = CyclicArray.get streamArr3 0 :=
  cyclicGetPrevious_undoes_rotate streamArr3
    (CyclicArray.fromMemory_valid (by decide) streamMem3) 1 (by decide) (by decide) 0 (by decide)

/-- C10 as stated is false about `remainder`: `CyclicArray::Resize`
assigns `remainder = size` but then calls `refresh()`, which
recomputes `remainder = size - shift - 1 = size - 1`; resizing a
2-element array to 3 leaves `remainder = 2`, not `3`. -/
theorem resize_remainder_counterexample :
    (CyclicArray.Resize (CyclicArray.fromMemory 2 (fun _ => (0 : ℤ))) 3).remainder
      ≠ ((3 : ℕ) : ℤ) := by
  decide

/-- C10 (amended): `Resize(size)` with the current size is a no-op
preserving the whole state; with any other size it discards the old
buffer and value-initializes every element to the default, carrying
nothing over, and `CyclicArray::Resize` additionally resets `shift`
to 0 and `lastOffset` to 0, with `remainder` left at `size - 1` by the
final `refresh()`. -/
theorem resize_semantics {T : Type} [Inhabited T] :
    (∀ a : GenericArray T, GenericArray.Resize a a.count = a) ∧
    (∀ (a : GenericArray T) (size : ℕ), size ≠ a.count →
        (GenericArray.Resize a size).count = size ∧
        ∀ p : ℤ, (GenericArray.Resize a size).data p = default) ∧
    (∀ a : CyclicArray T, CyclicArray.Resize a a.count = a) ∧
    (∀ (a : CyclicArray T) (size : ℕ), size ≠ a.count →
        (CyclicArray.Resize a size).count = size ∧
        (CyclicArray.Resize a size).shift = 0 ∧
        (CyclicArray.Resize a size).lastOffset = 0 ∧
        (CyclicArray.Resize a size).remainder = (size : ℤ) - 1 ∧
        ∀ i : ℕ, CyclicArray.get (CyclicArray.Resize a size) i = default) := by
  refine ⟨?_, ?_, ?_, ?_⟩
  · intro a
    unfold GenericArray.Resize
    simp
  · intro a size h
    unfold GenericArray.Resize
    rw [if_neg h]
    exact ⟨rfl, fun p => rfl⟩
  · intro a
    unfold CyclicArray.Resize
    simp
  · intro a size h
    unfold CyclicArray.Resize
    rw [if_neg h]
    refine ⟨?_, ?_, ?_, ?_, ?_⟩
    · rw [CyclicArray.refresh_count]
    · rw [CyclicArray.refresh_shift]
    · rw [CyclicArray.refresh_lastOffset]
    · show (CyclicArray.refresh _).remainder = (size : ℤ) - 1
      unfold CyclicArray.refresh
      norm_num
    · intro i
      rfl

/-- C9: over the translated intersection rectangle, every component of
the destination field receives, element for element, the corresponding
source elements; every destination cell that no rectangle iteration
targets keeps its previous value, and the component size is unchanged.
The embedded operation takes the source field as a read-only argument
and returns only a new destination, so the source trivially retains
its values.  The hypotheses `hc0`, `hc1` record that the rectangle's
`x`-extent fits inside the destination block's row width — true for
any legitimately constructed pair of same-level blocks — and make the
row decomposition of linear destination indices unique. -/
theorem fieldCopy_transfers_rectangle {D : ℕ}
    (FromField ToField : GenericField ℚ D)
    (FromBlock FromBaseBlock ToBlock ToBaseBlock : BasicBlock2) (P : CopyParams)
    (hP : copyParams FromBlock FromBaseBlock ToBlock ToBaseBlock = P)
    (hc0 : 0 ≤ P.startTox) (hc1 : P.startTox + P.Nx ≤ ToBlock.Nx) :
    (∀ (d : Fin D) (iy ix : ℤ), 0 ≤ iy → iy < P.Ny → 0 ≤ ix → ix < P.Nx →
      ((FieldCopy2D FromField ToField FromBlock FromBaseBlock ToBlock
            ToBaseBlock).getField d).get
          ((iy + P.startToy) * ToBlock.Nx + ix + P.startTox)
        = (FromField.getField d).get
            ((iy + P.startFromy) * FromBlock.Nx + ix + P.startFromx)) ∧
    (∀ (d : Fin D) (p : ℤ),
      (∀ iy ix : ℤ, 0 ≤ iy → iy < P.Ny → 0 ≤ ix → ix < P.Nx →
          (iy + P.startToy) * ToBlock.Nx + ix + P.startTox ≠ p) →
      ((FieldCopy2D FromField ToField FromBlock FromBaseBlock ToBlock
            ToBaseBlock).getField d).get p
        = (ToField.getField d).get p) ∧
    (∀ d : Fin D,
      ((FieldCopy2D FromField ToField FromBlock FromBaseBlock ToBlock
            ToBaseBlock).getField d).count
        = (ToField.getField d).count) := by
  have hunf : ∀ d : Fin D,
      (FieldCopy2D FromField ToField FromBlock FromBaseBlock ToBlock
          ToBaseBlock).getField d
        = (loopPairs P.Ny P.Nx).foldl
            (fun B q =>
              B.set ((q.1 + P.startToy) * ToBlock.Nx + q.2 + P.startTox)
                ((FromField.getField d).get
                  ((q.1 + P.startFromy) * FromBlock.Nx + q.2 + P.startFromx)))
            (ToField.getField d) := by
    intro d
    rw [← hP]
    rfl
  refine ⟨?_, ?_, ?_⟩
  · intro d iy ix h1 h2 h3 h4
    rw [hunf d]
    have hmem : ((iy, ix) : ℤ × ℤ) ∈ loopPairs P.Ny P.Nx :=
      (mem_loopPairs _ _ _).mpr ⟨h1, h2, h3, h4⟩
    have huniq : ∀ q ∈ loopPairs P.Ny P.Nx,
        (q.1 + P.startToy) * ToBlock.Nx + q.2 + P.startTox
          = (iy + P.startToy) * ToBlock.Nx + ix + P.startTox →
        q = (iy, ix) := by
      intro q hq hKq
      obtain ⟨qy, qx⟩ := q
      rw [mem_loopPairs] at hq
      have he : (qy + P.startToy) * ToBlock.Nx + (qx + P.startTox)
          = (iy + P.startToy) * ToBlock.Nx + (ix + P.startTox) := by
        linarith [hKq]
      obtain ⟨hr, hc⟩ := row_col_inj (by omega) (by omega) (by omega) (by omega) he
      exact Prod.ext_iff.mpr ⟨by omega, by omega⟩
    exact foldl_set_get_of_mem
      (fun q => (q.1 + P.startToy) * ToBlock.Nx + q.2 + P.startTox)
      (fun q => (FromField.getField d).get
        ((q.1 + P.startFromy) * FromBlock.Nx + q.2 + P.startFromx))
      ((iy + P.startToy) * ToBlock.Nx + ix + P.startTox) (iy, ix) rfl
      (loopPairs P.Ny P.Nx) (ToField.getField d) hmem huniq
  · intro d p hout
    rw [hunf d]
    apply foldl_set_get_of_notMem
    intro q hq
    rw [mem_loopPairs] at hq
    exact hout q.1 q.2 hq.1 hq.2.1 hq.2.2.1 hq.2.2.2
  · intro d
    rw [hunf d]
    exact foldl_set_count _ _ _ _

/-- Witness for C9 on the concrete same-level block pair: the single
intersection cell lands at destination index 5 with the value of
source index 10. -/
theorem fieldCopy_transfers_rectangle_witness :
    ((FieldCopy2D (constField 1 16 5) (constField 1 16 0) fromBlockEx fromBaseBlockEx
          toBlockEx toBaseBlockEx).getField 0).get ((0 + 1) * toBlockEx.Nx + 0 + 1)
      = ((constField 1 16 5).getField 0).get ((0 + 2) * fromBlockEx.Nx + 0 + 2) :=
  (fieldCopy_transfers_rectangle (constField 1 16 5) (constField 1 16 0) fromBlockEx
      fromBaseBlockEx toBlockEx toBaseBlockEx
      { Nx := 1, Ny := 1, startFromx := 2, startFromy := 2, startTox := 1, startToy := 1 }
      copyParamsEx (by decide) (by decide)).1 0 0 0 (by decide) (by decide) (by decide)
      (by decide)

/-- C6: each of the four 2D interpolation stencil cases blends with a
weight multiset equal to (0.5625, 0.1875, 0.1875, 0.0625) in some
order; the weights of every case sum to exactly 1; and on a concrete
coarse/fine block pair, interpolating a coarse field that is constant
`c` over the whole coarse allocation and then averaging the fine
result back reproduces `c` exactly at every coarse cell of the
intersection.  `FloatType` arithmetic is modelled as exact rationals,
where the dyadic weights are exact. -/
theorem interp_weights_and_constant_roundtrip :
    (∀ k : Fin 4,
      ({interpBlend k 1 0 0 0, interpBlend k 0 1 0 0, interpBlend k 0 0 1 0,
          interpBlend k 0 0 0 1} : Multiset ℚ)
        = ({0.5625, 0.1875, 0.1875, 0.0625} : Multiset ℚ)) ∧
    (∀ k : Fin 4, interpBlend k 1 1 1 1 = 1) ∧
    (∀ (D : ℕ) (CField FField : GenericField ℚ D) (c : ℚ),
      (∀ (d : Fin D) (p : ℤ), 0 ≤ p → p < 36 → (CField.getField d).get p = c) →
      ∀ (d : Fin D) (iy ix : ℤ), 0 ≤ iy → iy < 2 → 0 ≤ ix → ix < 2 →
        ((FieldAverage2D
              (FieldInterpolation2D CField FField cBlockEx cBaseBlockEx fBlockEx
                fBaseBlockEx)
              CField fBlockEx fBaseBlockEx cBlockEx cBaseBlockEx).getField d).get
            ((iy + 3) * 6 + ix + 3)
          = c) := by
  refine ⟨?_, ?_, ?_⟩
  · intro k
    fin_cases k
    · show ({interpBlend 0 1 0 0 0, interpBlend 0 0 1 0 0, interpBlend 0 0 0 1 0,
          interpBlend 0 0 0 0 1} : Multiset ℚ)
        = ({0.5625, 0.1875, 0.1875, 0.0625} : Multiset ℚ)
      have e0 : interpBlend 0 1 0 0 0 = (0.0625 : ℚ) := by norm_num [interpBlend]
      have e1 : interpBlend 0 0 1 0 0 = (0.1875 : ℚ) := by norm_num [interpBlend]
      have e2 : interpBlend 0 0 0 1 0 = (0.1875 : ℚ) := by norm_num [interpBlend]
      have e3 : interpBlend 0 0 0 0 1 = (0.5625 : ℚ) := by norm_num [interpBlend]
      rw [e0, e1, e2, e3]
      exact multiset4_reverse _ _ _ _
    · show ({interpBlend 1 1 0 0 0, interpBlend 1 0 1 0 0, interpBlend 1 0 0 1 0,
          interpBlend 1 0 0 0 1} : Multiset ℚ)
        = ({0.5625, 0.1875, 0.1875, 0.0625} : Multiset ℚ)
      have e0 : interpBlend 1 1 0 0 0 = (0.1875 : ℚ) := by norm_num [interpBlend]
      have e1 : interpBlend 1 0 1 0 0 = (0.0625 : ℚ) := by norm_num [interpBlend]
      have e2 : interpBlend 1 0 0 1 0 = (0.5625 : ℚ) := by norm_num [interpBlend]
      have e3 : interpBlend 1 0 0 0 1 = (0.1875 : ℚ) := by norm_num [interpBlend]
      rw [e0, e1, e2, e3]
      exact multiset4_rot1 _ _ _
    · show ({interpBlend 2 1 0 0 0, interpBlend 2 0 1 0 0, interpBlend 2 0 0 1 0,
          interpBlend 2 0 0 0 1} : Multiset ℚ)
        = ({0.5625, 0.1875, 0.1875, 0.0625} : Multiset ℚ)
      have e0 : interpBlend 2 1 0 0 0 = (0.1875 : ℚ) := by norm_num [interpBlend]
      have e1 : interpBlend 2 0 1 0 0 = (0.5625 : ℚ) := by norm_num [interpBlend]
      have e2 : interpBlend 2 0 0 1 0 = (0.0625 : ℚ) := by norm_num [interpBlend]
      have e3 : interpBlend 2 0 0 0 1 = (0.1875 : ℚ) := by norm_num [interpBlend]
      rw [e0, e1, e2, e3]
      exact multiset4_rot2 _ _ _
    · show ({interpBlend 3 1 0 0 0, interpBlend 3 0 1 0 0, interpBlend 3 0 0 1 0,
          interpBlend 3 0 0 0 1} : Multiset ℚ)
        = ({0.5625, 0.1875, 0.1875, 0.0625} : Multiset ℚ)
      have e0 : interpBlend 3 1 0 0 0 = (0.5625 : ℚ) := by norm_num [interpBlend]
      have e1 : interpBlend 3 0 1 0 0 = (0.1875 : ℚ) := by norm_num [interpBlend]
      have e2 : interpBlend 3 0 0 1 0 = (0.1875 : ℚ) := by norm_num [interpBlend]
      have e3 : interpBlend 3 0 0 0 1 = (0.0625 : ℚ) := by norm_num [interpBlend]
      rw [e0, e1, e2, e3]
  · intro k
    fin_cases k <;> norm_num [interpBlend]
  · intro D CField FField c hconst d iy ix h1 h2 h3 h4
    rw [avgEx_unfold]
    have hmem : ((iy, ix) : ℤ × ℤ) ∈ loopPairs 2 2 :=
      (mem_loopPairs _ _ _).mpr ⟨h1, h2, h3, h4⟩
    have huniq : ∀ q ∈ loopPairs 2 2,
        (q.1 + 3) * 6 + q.2 + 3 = (iy + 3) * 6 + ix + 3 → q = (iy, ix) := by
      intro q hq hKq
      obtain ⟨qy, qx⟩ := q
      rw [mem_loopPairs] at hq
      exact Prod.ext_iff.mpr ⟨by omega, by omega⟩
    rw [foldl_set_get_of_mem (fun q => (q.1 + 3) * 6 + q.2 + 3)
      (fun q =>
        (((FieldInterpolation2D CField FField cBlockEx cBaseBlockEx fBlockEx
              fBaseBlockEx).getField d).get ((q.1 * 2 + 1) * 6 + q.2 * 2 + 1)
          + ((FieldInterpolation2D CField FField cBlockEx cBaseBlockEx fBlockEx
              fBaseBlockEx).getField d).get ((q.1 * 2 + 1) * 6 + q.2 * 2 + 1 + 1)
          + ((FieldInterpolation2D CField FField cBlockEx cBaseBlockEx fBlockEx
              fBaseBlockEx).getField d).get ((q.1 * 2 + 1) * 6 + q.2 * 2 + 1 + 6)
          + ((FieldInterpolation2D CField FField cBlockEx cBaseBlockEx fBlockEx
              fBaseBlockEx).getField d).get ((q.1 * 2 + 1) * 6 + q.2 * 2 + 1 + 6 + 1))
          * (0.25 : ℚ))
      ((iy + 3) * 6 + ix + 3) (iy, ix) rfl (loopPairs 2 2) (CField.getField d) hmem huniq]
    have i2 : (iy * 2 + 1) * 6 + ix * 2 + 1 + 1 = (iy * 2 + 1) * 6 + ix * 2 + 2 := by ring
    have i3 : (iy * 2 + 1) * 6 + ix * 2 + 1 + 6 = (iy * 2 + 2) * 6 + ix * 2 + 1 := by ring
    have i4 : (iy * 2 + 1) * 6 + ix * 2 + 1 + 6 + 1 = (iy * 2 + 2) * 6 + ix * 2 + 2 := by
      ring
    rw [i4, i3, i2,
      interpEx_const_fine CField FField c hconst d iy ix 1 1 h1 h2 h3 h4
        (Or.inl rfl) (Or.inl rfl),
      interpEx_const_fine CField FField c hconst d iy ix 1 2 h1 h2 h3 h4
        (Or.inl rfl) (Or.inr rfl),
      interpEx_const_fine CField FField c hconst d iy ix 2 1 h1 h2 h3 h4
        (Or.inr rfl) (Or.inl rfl),
      interpEx_const_fine CField FField c hconst d iy ix 2 2 h1 h2 h3 h4
        (Or.inr rfl) (Or.inr rfl)]
    ring

/-- Witness for C6: the case-0 weight multiset, and the constant-5
round trip at rectangle cell `(0,1)` of the concrete block pair. -/
theorem interp_weights_and_constant_roundtrip_witness :
    ({interpBlend 0 1 0 0 0, interpBlend 0 0 1 0 0, interpBlend 0 0 0 1 0,
        interpBlend 0 0 0 0 1} : Multiset ℚ)
      = ({0.5625, 0.1875, 0.1875, 0.0625} : Multiset ℚ) ∧
    ((FieldAverage2D
          (FieldInterpolation2D (constField 1 36 5) (constField 1 36 0) cBlockEx
            cBaseBlockEx fBlockEx fBaseBlockEx)
          (constField 1 36 5) fBlockEx fBaseBlockEx cBlockEx cBaseBlockEx).getField 0).get
        ((0 + 3) * 6 + 1 + 3)
      = 5 :=
  ⟨interp_weights_and_constant_roundtrip.1 0,
   interp_weights_and_constant_roundtrip.2.2 1 (constField 1 36 5) (constField 1 36 0) 5
     (fun _ _ _ _ => rfl) 0 0 1 (by decide) (by decide) (by decide) (by decide)⟩

/-- C7: after `FieldAverage2D`, every coarse cell of the translated
intersection rectangle holds, in every component, the sum of its four
fine children multiplied by `0.25` — equivalently their unweighted
arithmetic mean (sum divided by 4).  The hypotheses `hc0`, `hc1`
record that the rectangle's `x`-extent fits inside the coarse block's
row width, true for any legitimately constructed coarse/fine pair. -/
theorem fieldAverage_mean_of_children {D : ℕ}
    (FField CField : GenericField ℚ D)
    (FBlock FBaseBlock CBlock CBaseBlock : BasicBlock2) (P : AvgParams)
    (hP : avgParams FBlock FBaseBlock CBlock CBaseBlock = P)
    (hc0 : 0 ≤ P.startCx) (hc1 : P.startCx + P.CNx ≤ CBlock.Nx) :
    ∀ (d : Fin D) (iy ix : ℤ), 0 ≤ iy → iy < P.CNy → 0 ≤ ix → ix < P.CNx →
      ((FieldAverage2D FField CField FBlock FBaseBlock CBlock CBaseBlock).getField d).get
          ((iy + P.startCy) * CBlock.Nx + ix + P.startCx)
        = ((FField.getField d).get ((iy * 2 + P.startFy) * FBlock.Nx + ix * 2 + P.startFx)
            + (FField.getField d).get
                ((iy * 2 + P.startFy) * FBlock.Nx + ix * 2 + P.startFx + 1)
            + (FField.getField d).get
                ((iy * 2 + P.startFy) * FBlock.Nx + ix * 2 + P.startFx + FBlock.Nx)
            + (FField.getField d).get
                ((iy * 2 + P.startFy) * FBlock.Nx + ix * 2 + P.startFx + FBlock.Nx + 1))
            * (0.25 : ℚ) ∧
      ((FieldAverage2D FField CField FBlock FBaseBlock CBlock CBaseBlock).getField d).get
          ((iy + P.startCy) * CBlock.Nx + ix + P.startCx)
        = ((FField.getField d).get ((iy * 2 + P.startFy) * FBlock.Nx + ix * 2 + P.startFx)
            + (FField.getField d).get
                ((iy * 2 + P.startFy) * FBlock.Nx + ix * 2 + P.startFx + 1)
            + (FField.getField d).get
                ((iy * 2 + P.startFy) * FBlock.Nx + ix * 2 + P.startFx + FBlock.Nx)
            + (FField.getField d).get
                ((iy * 2 + P.startFy) * FBlock.Nx + ix * 2 + P.startFx + FBlock.Nx + 1))
            / 4 := by
  have hunf : ∀ d : Fin D,
      (FieldAverage2D FField CField FBlock FBaseBlock CBlock CBaseBlock).getField d
        = (loopPairs P.CNy P.CNx).foldl
            (fun B q =>
              B.set ((q.1 + P.startCy) * CBlock.Nx + q.2 + P.startCx)
                (((FField.getField d).get
                    ((q.1 * 2 + P.startFy) * FBlock.Nx + q.2 * 2 + P.startFx)
                  + (FField.getField d).get
                      ((q.1 * 2 + P.startFy) * FBlock.Nx + q.2 * 2 + P.startFx + 1)
                  + (FField.getField d).get
                      ((q.1 * 2 + P.startFy) * FBlock.Nx + q.2 * 2 + P.startFx + FBlock.Nx)
                  + (FField.getField d).get
                      ((q.1 * 2 + P.startFy) * FBlock.Nx + q.2 * 2 + P.startFx
                        + FBlock.Nx + 1))
                  * (0.25 : ℚ)))
            (CField.getField d) := by
    intro d
    rw [← hP]
    rfl
  intro d iy ix h1 h2 h3 h4
  have hmem : ((iy, ix) : ℤ × ℤ) ∈ loopPairs P.CNy P.CNx :=
    (mem_loopPairs _ _ _).mpr ⟨h1, h2, h3, h4⟩
  have huniq : ∀ q ∈ loopPairs P.CNy P.CNx,
      (q.1 + P.startCy) * CBlock.Nx + q.2 + P.startCx
        = (iy + P.startCy) * CBlock.Nx + ix + P.startCx →
      q = (iy, ix) := by
    intro q hq hKq
    obtain ⟨qy, qx⟩ := q
    rw [mem_loopPairs] at hq
    have he : (qy + P.startCy) * CBlock.Nx + (qx + P.startCx)
        = (iy + P.startCy) * CBlock.Nx + (ix + P.startCx) := by
      linarith [hKq]
    obtain ⟨hr, hc⟩ := row_col_inj (by omega) (by omega) (by omega) (by omega) he
    exact Prod.ext_iff.mpr ⟨by omega, by omega⟩
  have hval : ((FieldAverage2D FField CField FBlock FBaseBlock CBlock
        CBaseBlock).getField d).get ((iy + P.startCy) * CBlock.Nx + ix + P.startCx)
      = ((FField.getField d).get ((iy * 2 + P.startFy) * FBlock.Nx + ix * 2 + P.startFx)
          + (FField.getField d).get
              ((iy * 2 + P.startFy) * FBlock.Nx + ix * 2 + P.startFx + 1)
          + (FField.getField d).get
              ((iy * 2 + P.startFy) * FBlock.Nx + ix * 2 + P.startFx + FBlock.Nx)
          + (FField.getField d).get
              ((iy * 2 + P.startFy) * FBlock.Nx + ix * 2 + P.startFx + FBlock.Nx + 1))
          * (0.25 : ℚ) := by
    rw [hunf d]
    exact foldl_set_get_of_mem
      (fun q => (q.1 + P.startCy) * CBlock.Nx + q.2 + P.startCx)
      (fun q =>
        ((FField.getField d).get ((q.1 * 2 + P.startFy) * FBlock.Nx + q.2 * 2 + P.startFx)
          + (FField.getField d).get
              ((q.1 * 2 + P.startFy) * FBlock.Nx + q.2 * 2 + P.startFx + 1)
          + (FField.getField d).get
              ((q.1 * 2 + P.startFy) * FBlock.Nx + q.2 * 2 + P.startFx + FBlock.Nx)
          + (FField.getField d).get
              ((q.1 * 2 + P.startFy) * FBlock.Nx + q.2 * 2 + P.startFx + FBlock.Nx + 1))
          * (0.25 : ℚ))
      ((iy + P.startCy) * CBlock.Nx + ix + P.startCx) (iy, ix) rfl
      (loopPairs P.CNy P.CNx) (CField.getField d) hmem huniq
  refine ⟨hval, ?_⟩
  rw [hval]
  ring

/-- Witness for C7 on the concrete coarse/fine block pair at the
rectangle cell `(0,0)`. -/
theorem fieldAverage_mean_of_children_witness :
    ((FieldAverage2D (constField 1 36 2) (constField 1 36 0) fBlockEx fBaseBlockEx cBlockEx
          cBaseBlockEx).getField 0).get ((0 + 3) * cBlockEx.Nx + 0 + 3)
      = (((constField 1 36 2).getField 0).get ((0 * 2 + 1) * fBlockEx.Nx + 0 * 2 + 1)
          + ((constField 1 36 2).getField 0).get ((0 * 2 + 1) * fBlockEx.Nx + 0 * 2 + 1 + 1)
          + ((constField 1 36 2).getField 0).get
              ((0 * 2 + 1) * fBlockEx.Nx + 0 * 2 + 1 + fBlockEx.Nx)
          + ((constField 1 36 2).getField 0).get
              ((0 * 2 + 1) * fBlockEx.Nx + 0 * 2 + 1 + fBlockEx.Nx + 1))
          * (0.25 : ℚ) :=
  (fieldAverage_mean_of_children (constField 1 36 2) (constField 1 36 0) fBlockEx
      fBaseBlockEx cBlockEx cBaseBlockEx
      { CNx := 2, CNy := 2, startCx := 3, startCy := 3, startFx := 1, startFy := 1 }
      avgParamsEx (by decide) (by decide) 0 0 0 (by decide) (by decide) (by decide)
      (by decide)).1

/-- C8: each transfer routine touches memory only through the
translated intersection rectangle.  For every pair of blocks whose
translated rectangle fits the blocks' own mesh (the inequality
hypotheses; the allocated range of a block's component array is
`[0, Nx*Ny)`): any destination cell the operation changes lies in the
translated rectangle and inside the destination allocation, and the
result depends only on source values inside the source allocation
(two source fields that agree there produce identical results).  The
iteration bounds are computed from the geometry alone — nothing is
clamped to the array sizes, so an out-of-range rectangle leads to
out-of-range writes rather than silent truncation. -/
theorem transfer_ops_stay_in_bounds :
    (∀ (D : ℕ) (FromF ToF : GenericField ℚ D)
        (FromBlock FromBaseBlock ToBlock ToBaseBlock : BasicBlock2) (P : CopyParams),
      copyParams FromBlock FromBaseBlock ToBlock ToBaseBlock = P →
      0 ≤ P.startTox → P.startTox + P.Nx ≤ ToBlock.Nx →
      0 ≤ P.startToy → P.startToy + P.Ny ≤ ToBlock.Ny →
      0 ≤ P.startFromx → P.startFromx + P.Nx ≤ FromBlock.Nx →
      0 ≤ P.startFromy → P.startFromy + P.Ny ≤ FromBlock.Ny →
      (∀ (d : Fin D) (p : ℤ),
        ((FieldCopy2D FromF ToF FromBlock FromBaseBlock ToBlock
              ToBaseBlock).getField d).get p
          ≠ (ToF.getField d).get p →
        (∃ iy ix : ℤ, 0 ≤ iy ∧ iy < P.Ny ∧ 0 ≤ ix ∧ ix < P.Nx ∧
            p = (iy + P.startToy) * ToBlock.Nx + ix + P.startTox) ∧
        0 ≤ p ∧ p < ToBlock.Ny * ToBlock.Nx) ∧
      (∀ FromF2 : GenericField ℚ D,
        (∀ (d : Fin D) (p : ℤ), 0 ≤ p → p < FromBlock.Ny * FromBlock.Nx →
            (FromF.getField d).get p = (FromF2.getField d).get p) →
        FieldCopy2D FromF ToF FromBlock FromBaseBlock ToBlock ToBaseBlock
          = FieldCopy2D FromF2 ToF FromBlock FromBaseBlock ToBlock ToBaseBlock)) ∧
    (∀ (D : ℕ) (FField CField : GenericField ℚ D)
        (FBlock FBaseBlock CBlock CBaseBlock : BasicBlock2) (P : AvgParams),
      avgParams FBlock FBaseBlock CBlock CBaseBlock = P →
      0 ≤ P.startCx → P.startCx + P.CNx ≤ CBlock.Nx →
      0 ≤ P.startCy → P.startCy + P.CNy ≤ CBlock.Ny →
      0 ≤ P.startFx → P.startFx + 2 * P.CNx ≤ FBlock.Nx →
      0 ≤ P.startFy → P.startFy + 2 * P.CNy ≤ FBlock.Ny →
      (∀ (d : Fin D) (p : ℤ),
        ((FieldAverage2D FField CField FBlock FBaseBlock CBlock
              CBaseBlock).getField d).get p
          ≠ (CField.getField d).get p →
        (∃ iy ix : ℤ, 0 ≤ iy ∧ iy < P.CNy ∧ 0 ≤ ix ∧ ix < P.CNx ∧
            p = (iy + P.startCy) * CBlock.Nx + ix + P.startCx) ∧
        0 ≤ p ∧ p < CBlock.Ny * CBlock.Nx) ∧
      (∀ FField2 : GenericField ℚ D,
        (∀ (d : Fin D) (p : ℤ), 0 ≤ p → p < FBlock.Ny * FBlock.Nx →
            (FField.getField d).get p = (FField2.getField d).get p) →
        FieldAverage2D FField CField FBlock FBaseBlock CBlock CBaseBlock
          = FieldAverage2D FField2 CField FBlock FBaseBlock CBlock CBaseBlock)) ∧
    (∀ (D : ℕ) (CField FField : GenericField ℚ D)
        (CBlock CBaseBlock FBlock FBaseBlock : BasicBlock2) (P : InterpParams),
      interpParams CBlock CBaseBlock FBlock FBaseBlock = P →
      0 ≤ P.startFx → P.startFx + 2 * P.CNx ≤ FBlock.Nx →
      0 ≤ P.startFy → P.startFy + 2 * P.CNy ≤ FBlock.Ny →
      1 ≤ P.startCxu → P.startCxu + P.CNx + 1 ≤ CBlock.Nx →
      1 ≤ P.startCyu → P.startCyu + P.CNy + 1 ≤ CBlock.Ny →
      (∀ (d : Fin D) (p : ℤ),
        ((FieldInterpolation2D CField FField CBlock CBaseBlock FBlock
              FBaseBlock).getField d).get p
          ≠ (FField.getField d).get p →
        (∃ r s : ℤ, P.startFy ≤ r ∧ r < P.startFy + 2 * P.CNy ∧
            P.startFx ≤ s ∧ s < P.startFx + 2 * P.CNx ∧ p = r * FBlock.Nx + s) ∧
        0 ≤ p ∧ p < FBlock.Ny * FBlock.Nx) ∧
      (∀ CField2 : GenericField ℚ D,
        (∀ (d : Fin D) (p : ℤ), 0 ≤ p → p < CBlock.Ny * CBlock.Nx →
            (CField.getField d).get p = (CField2.getField d).get p) →
        FieldInterpolation2D CField FField CBlock CBaseBlock FBlock FBaseBlock
          = FieldInterpolation2D CField2 FField CBlock CBaseBlock FBlock FBaseBlock)) := by
  refine ⟨?_, ?_, ?_⟩
  · intro D FromF ToF FromBlock FromBaseBlock ToBlock ToBaseBlock P hP hTx1 hTx2 hTy1
      hTy2 hFx1 hFx2 hFy1 hFy2
    have hunf : ∀ (G : GenericField ℚ D) (d : Fin D),
        (FieldCopy2D G ToF FromBlock FromBaseBlock ToBlock ToBaseBlock).getField d
          = (loopPairs P.Ny P.Nx).foldl
              (fun B q =>
                B.set ((q.1 + P.startToy) * ToBlock.Nx + q.2 + P.startTox)
                  ((G.getField d).get
                    ((q.1 + P.startFromy) * FromBlock.Nx + q.2 + P.startFromx)))
              (ToF.getField d) := by
      intro G d
      rw [← hP]
      rfl
    constructor
    · intro d p hne
      have hex : ∃ iy ix : ℤ, 0 ≤ iy ∧ iy < P.Ny ∧ 0 ≤ ix ∧ ix < P.Nx ∧
          p = (iy + P.startToy) * ToBlock.Nx + ix + P.startTox := by
        by_contra hno
        push_neg at hno
        apply hne
        rw [hunf FromF d]
        apply foldl_set_get_of_notMem
        intro q hq
        rw [mem_loopPairs] at hq
        intro heq
        exact hno q.1 q.2 hq.1 hq.2.1 hq.2.2.1 hq.2.2.2 heq.symm
      obtain ⟨iy, ix, b1, b2, b3, b4, hpk⟩ := hex
      have hNx : 0 < ToBlock.Nx := by omega
      have hb := id_in_alloc' hNx (show 0 ≤ iy + P.startToy by omega)
        (show iy + P.startToy < ToBlock.Ny by omega)
        (show 0 ≤ ix + P.startTox by omega)
        (show ix + P.startTox < ToBlock.Nx by omega)
        (show p = (iy + P.startToy) * ToBlock.Nx + (ix + P.startTox) by linarith [hpk])
      exact ⟨⟨iy, ix, b1, b2, b3, b4, hpk⟩, hb.1, hb.2⟩
    · intro FromF2 hagree
      have hD : ∀ d : Fin D,
          (FieldCopy2D FromF ToF FromBlock FromBaseBlock ToBlock ToBaseBlock).getField d
            = (FieldCopy2D FromF2 ToF FromBlock FromBaseBlock ToBlock
                ToBaseBlock).getField d := by
        intro d
        rw [hunf FromF d, hunf FromF2 d]
        apply foldl_set_congr
        intro q hq
        rw [mem_loopPairs] at hq
        have hNx : 0 < FromBlock.Nx := by omega
        have hb := id_in_alloc' hNx (show 0 ≤ q.1 + P.startFromy by omega)
          (show q.1 + P.startFromy < FromBlock.Ny by omega)
          (show 0 ≤ q.2 + P.startFromx by omega)
          (show q.2 + P.startFromx < FromBlock.Nx by omega)
          (show (q.1 + P.startFromy) * FromBlock.Nx + q.2 + P.startFromx
              = (q.1 + P.startFromy) * FromBlock.Nx + (q.2 + P.startFromx) by ring)
        exact hagree d _ hb.1 hb.2
      exact congrArg GenericField.mk (funext hD)
  · intro D FField CField FBlock FBaseBlock CBlock CBaseBlock P hP hCx1 hCx2 hCy1 hCy2
      hFx1 hFx2 hFy1 hFy2
    have hunf : ∀ (G : GenericField ℚ D) (d : Fin D),
        (FieldAverage2D G CField FBlock FBaseBlock CBlock CBaseBlock).getField d
          = (loopPairs P.CNy P.CNx).foldl
              (fun B q =>
                B.set ((q.1 + P.startCy) * CBlock.Nx + q.2 + P.startCx)
                  (((G.getField d).get
                      ((q.1 * 2 + P.startFy) * FBlock.Nx + q.2 * 2 + P.startFx)
                    + (G.getField d).get
                        ((q.1 * 2 + P.startFy) * FBlock.Nx + q.2 * 2 + P.startFx + 1)
                    + (G.getField d).get
                        ((q.1 * 2 + P.startFy) * FBlock.Nx + q.2 * 2 + P.startFx
                          + FBlock.Nx)
                    + (G.getField d).get
                        ((q.1 * 2 + P.startFy) * FBlock.Nx + q.2 * 2 + P.startFx
                          + FBlock.Nx + 1))
                    * (0.25 : ℚ)))
              (CField.getField d) := by
      intro G d
      rw [← hP]
      rfl
    constructor
    · intro d p hne
      have hex : ∃ iy ix : ℤ, 0 ≤ iy ∧ iy < P.CNy ∧ 0 ≤ ix ∧ ix < P.CNx ∧
          p = (iy + P.startCy) * CBlock.Nx + ix + P.startCx := by
        by_contra hno
        push_neg at hno
        apply hne
        rw [hunf FField d]
        apply foldl_set_get_of_notMem
        intro q hq
        rw [mem_loopPairs] at hq
        intro heq
        exact hno q.1 q.2 hq.1 hq.2.1 hq.2.2.1 hq.2.2.2 heq.symm
      obtain ⟨iy, ix, b1, b2, b3, b4, hpk⟩ := hex
      have hNx : 0 < CBlock.Nx := by omega
      have hb := id_in_alloc' hNx (show 0 ≤ iy + P.startCy by omega)
        (show iy + P.startCy < CBlock.Ny by omega)
        (show 0 ≤ ix + P.startCx by omega)
        (show ix + P.startCx < CBlock.Nx by omega)
        (show p = (iy + P.startCy) * CBlock.Nx + (ix + P.startCx) by linarith [hpk])
      exact ⟨⟨iy, ix, b1, b2, b3, b4, hpk⟩, hb.1, hb.2⟩
    · intro FField2 hagree
      have hD : ∀ d : Fin D,
          (FieldAverage2D FField CField FBlock FBaseBlock CBlock CBaseBlock).getField d
            = (FieldAverage2D FField2 CField FBlock FBaseBlock CBlock
                CBaseBlock).getField d := by
        intro d
        rw [hunf FField d, hunf FField2 d]
        apply foldl_set_congr
        intro q hq
        rw [mem_loopPairs] at hq
        have hNx : 0 < FBlock.Nx := by omega
        have hb0 := id_in_alloc' hNx (show 0 ≤ q.1 * 2 + P.startFy by omega)
          (show q.1 * 2 + P.startFy < FBlock.Ny by omega)
          (show 0 ≤ q.2 * 2 + P.startFx by omega)
          (show q.2 * 2 + P.startFx < FBlock.Nx by omega)
          (show (q.1 * 2 + P.startFy) * FBlock.Nx + q.2 * 2 + P.startFx
              = (q.1 * 2 + P.startFy) * FBlock.Nx + (q.2 * 2 + P.startFx) by ring)
        have hb1 := id_in_alloc' hNx (show 0 ≤ q.1 * 2 + P.startFy by omega)
          (show q.1 * 2 + P.startFy < FBlock.Ny by omega)
          (show 0 ≤ q.2 * 2 + P.startFx + 1 by omega)
          (show q.2 * 2 + P.startFx + 1 < FBlock.Nx by omega)
          (show (q.1 * 2 + P.startFy) * FBlock.Nx + q.2 * 2 + P.startFx + 1
              = (q.1 * 2 + P.startFy) * FBlock.Nx + (q.2 * 2 + P.startFx + 1) by ring)
        have hb2 := id_in_alloc' hNx (show 0 ≤ q.1 * 2 + P.startFy + 1 by omega)
          (show q.1 * 2 + P.startFy + 1 < FBlock.Ny by omega)
          (show 0 ≤ q.2 * 2 + P.startFx by omega)
          (show q.2 * 2 + P.startFx < FBlock.Nx by omega)
          (show (q.1 * 2 + P.startFy) * FBlock.Nx + q.2 * 2 + P.startFx + FBlock.Nx
              = (q.1 * 2 + P.startFy + 1) * FBlock.Nx + (q.2 * 2 + P.startFx) by ring)
        have hb3 := id_in_alloc' hNx (show 0 ≤ q.1 * 2 + P.startFy + 1 by omega)
          (show q.1 * 2 + P.startFy + 1 < FBlock.Ny by omega)
          (show 0 ≤ q.2 * 2 + P.startFx + 1 by omega)
          (show q.2 * 2 + P.startFx + 1 < FBlock.Nx by omega)
          (show (q.1 * 2 + P.startFy) * FBlock.Nx + q.2 * 2 + P.startFx + FBlock.Nx + 1
              = (q.1 * 2 + P.startFy + 1) * FBlock.Nx + (q.2 * 2 + P.startFx + 1) by
            ring)
        rw [hagree d _ hb0.1 hb0.2, hagree d _ hb1.1 hb1.2, hagree d _ hb2.1 hb2.2,
          hagree d _ hb3.1 hb3.2]
      exact congrArg GenericField.mk (funext hD)
  · intro D CField FField CBlock CBaseBlock FBlock FBaseBlock P hP hFx1 hFx2 hFy1 hFy2
      hCx1 hCx2 hCy1 hCy2
    have hunf : ∀ (G : GenericField ℚ D) (d : Fin D),
        (FieldInterpolation2D G FField CBlock CBaseBlock FBlock FBaseBlock).getField d
          = interpCaseFold (G.getField d) P.CNy P.CNx CBlock.Nx FBlock.Nx
              P.startCyu P.startCxu (P.startFy + 1) (P.startFx + 1) 3
              (interpCaseFold (G.getField d) P.CNy P.CNx CBlock.Nx FBlock.Nx
                P.startCyu (P.startCxu - 1) (P.startFy + 1) P.startFx 2
                (interpCaseFold (G.getField d) P.CNy P.CNx CBlock.Nx FBlock.Nx
                  (P.startCyu - 1) P.startCxu P.startFy (P.startFx + 1) 1
                  (interpCaseFold (G.getField d) P.CNy P.CNx CBlock.Nx FBlock.Nx
                    (P.startCyu - 1) (P.startCxu - 1) P.startFy P.startFx 0
                    (FField.getField d)))) := by
      intro G d
      rw [← hP]
      rfl
    constructor
    · intro d p hne
      have hex : ∃ r s : ℤ, P.startFy ≤ r ∧ r < P.startFy + 2 * P.CNy ∧
          P.startFx ≤ s ∧ s < P.startFx + 2 * P.CNx ∧ p = r * FBlock.Nx + s := by
        by_contra hno
        push_neg at hno
        apply hne
        rw [hunf CField d]
        rw [interpCaseFold_get_of_notMem _ _ _ _ _ _ _ _ _ _ _ _
            (by
              intro qy qx e1 e2 e3 e4 heq
              exact hno (qy * 2 + (P.startFy + 1)) (qx * 2 + (P.startFx + 1))
                (by omega) (by omega) (by omega) (by omega) (by linarith [heq])),
          interpCaseFold_get_of_notMem _ _ _ _ _ _ _ _ _ _ _ _
            (by
              intro qy qx e1 e2 e3 e4 heq
              exact hno (qy * 2 + (P.startFy + 1)) (qx * 2 + P.startFx)
                (by omega) (by omega) (by omega) (by omega) (by linarith [heq])),
          interpCaseFold_get_of_notMem _ _ _ _ _ _ _ _ _ _ _ _
            (by
              intro qy qx e1 e2 e3 e4 heq
              exact hno (qy * 2 + P.startFy) (qx * 2 + (P.startFx + 1))
                (by omega) (by omega) (by omega) (by omega) (by linarith [heq])),
          interpCaseFold_get_of_notMem _ _ _ _ _ _ _ _ _ _ _ _
            (by
              intro qy qx e1 e2 e3 e4 heq
              exact hno (qy * 2 + P.startFy) (qx * 2 + P.startFx)
                (by omega) (by omega) (by omega) (by omega) (by linarith [heq]))]
      obtain ⟨r, s, b1, b2, b3, b4, hpk⟩ := hex
      have hNx : 0 < FBlock.Nx := by omega
      have hb := id_in_alloc' hNx (show 0 ≤ r by omega) (show r < FBlock.Ny by omega)
        (show 0 ≤ s by omega) (show s < FBlock.Nx by omega) hpk
      exact ⟨⟨r, s, b1, b2, b3, b4, hpk⟩, hb.1, hb.2⟩
    · intro CField2 hagree
      have hNxC : ∀ d : Fin D, 0 < CBlock.Nx → True := fun _ _ => trivial
      have hval : ∀ (d : Fin D) (cy cx : ℤ), 0 ≤ cy → cy + P.CNy + 1 ≤ CBlock.Ny →
          0 ≤ cx → cx + P.CNx + 1 ≤ CBlock.Nx → ∀ (k : Fin 4) (qy qx : ℤ),
          0 ≤ qy → qy < P.CNy → 0 ≤ qx → qx < P.CNx →
          interpBlend k
              ((CField.getField d).get ((qy + cy) * CBlock.Nx + qx + cx))
              ((CField.getField d).get ((qy + cy) * CBlock.Nx + qx + cx + 1))
              ((CField.getField d).get ((qy + cy) * CBlock.Nx + qx + cx + CBlock.Nx))
              ((CField.getField d).get
                ((qy + cy) * CBlock.Nx + qx + cx + CBlock.Nx + 1))
            = interpBlend k
                ((CField2.getField d).get ((qy + cy) * CBlock.Nx + qx + cx))
                ((CField2.getField d).get ((qy + cy) * CBlock.Nx + qx + cx + 1))
                ((CField2.getField d).get
                  ((qy + cy) * CBlock.Nx + qx + cx + CBlock.Nx))
                ((CField2.getField d).get
                  ((qy + cy) * CBlock.Nx + qx + cx + CBlock.Nx + 1)) := by
        intro d cy cx g1 g2 g3 g4 k qy qx e1 e2 e3 e4
        have hNx : 0 < CBlock.Nx := by omega
        have hb0 := id_in_alloc' hNx (show 0 ≤ qy + cy by omega)
          (show qy + cy < CBlock.Ny by omega) (show 0 ≤ qx + cx by omega)
          (show qx + cx < CBlock.Nx by omega)
          (show (qy + cy) * CBlock.Nx + qx + cx
              = (qy + cy) * CBlock.Nx + (qx + cx) by ring)
        have hb1 := id_in_alloc' hNx (show 0 ≤ qy + cy by omega)
          (show qy + cy < CBlock.Ny by omega) (show 0 ≤ qx + cx + 1 by omega)
          (show qx + cx + 1 < CBlock.Nx by omega)
          (show (qy + cy) * CBlock.Nx + qx + cx + 1
              = (qy + cy) * CBlock.Nx + (qx + cx + 1) by ring)
        have hb2 := id_in_alloc' hNx (show 0 ≤ qy + cy + 1 by omega)
          (show qy + cy + 1 < CBlock.Ny by omega) (show 0 ≤ qx + cx by omega)
          (show qx + cx < CBlock.Nx by omega)
          (show (qy + cy) * CBlock.Nx + qx + cx + CBlock.Nx
              = (qy + cy + 1) * CBlock.Nx + (qx + cx) by ring)
        have hb3 := id_in_alloc' hNx (show 0 ≤ qy + cy + 1 by omega)
          (show qy + cy + 1 < CBlock.Ny by omega) (show 0 ≤ qx + cx + 1 by omega)
          (show qx + cx + 1 < CBlock.Nx by omega)
          (show (qy + cy) * CBlock.Nx + qx + cx + CBlock.Nx + 1
              = (qy + cy + 1) * CBlock.Nx + (qx + cx + 1) by ring)
        rw [hagree d _ hb0.1 hb0.2, hagree d _ hb1.1 hb1.2, hagree d _ hb2.1 hb2.2,
          hagree d _ hb3.1 hb3.2]
      have hD : ∀ d : Fin D,
          (FieldInterpolation2D CField FField CBlock CBaseBlock FBlock
              FBaseBlock).getField d
            = (FieldInterpolation2D CField2 FField CBlock CBaseBlock FBlock
                FBaseBlock).getField d := by
        intro d
        rw [hunf CField d, hunf CField2 d]
        apply interpCaseFold_congr
        · apply interpCaseFold_congr
          · apply interpCaseFold_congr
            · apply interpCaseFold_congr
              · rfl
              · intro qy qx e1 e2 e3 e4
                exact hval d (P.startCyu - 1) (P.startCxu - 1) (by omega) (by omega)
                  (by omega) (by omega) 0 qy qx e1 e2 e3 e4
            · intro qy qx e1 e2 e3 e4
              exact hval d (P.startCyu - 1) P.startCxu (by omega) (by omega)
                (by omega) (by omega) 1 qy qx e1 e2 e3 e4
          · intro qy qx e1 e2 e3 e4
            exact hval d P.startCyu (P.startCxu - 1) (by omega) (by omega)
              (by omega) (by omega) 2 qy qx e1 e2 e3 e4
        · intro qy qx e1 e2 e3 e4
          exact hval d P.startCyu P.startCxu (by omega) (by omega)
            (by omega) (by omega) 3 qy qx e1 e2 e3 e4
      exact congrArg GenericField.mk (funext hD)

/-- Witness for C8 on the concrete same-level copy pair: destination
index 5 changes (it receives source value 5 over the old 0), and the
theorem places it in the translated rectangle and inside the
destination allocation `[0, 16)`. -/
theorem transfer_ops_stay_in_bounds_witness :
    (∃ iy ix : ℤ, 0 ≤ iy ∧ iy < (1 : ℤ) ∧ 0 ≤ ix ∧ ix < (1 : ℤ) ∧
        (5 : ℤ) = (iy + 1) * toBlockEx.Nx + ix + 1) ∧
    (0 : ℤ) ≤ 5 ∧ (5 : ℤ) < toBlockEx.Ny * toBlockEx.Nx := by
  have h0 : (FieldCopy2D (constField 1 16 5) (constField 1 16 0) fromBlockEx
        fromBaseBlockEx toBlockEx toBaseBlockEx).getField 0
      = (loopPairs 1 1).foldl
          (fun B q =>
            B.set ((q.1 + 1) * 4 + q.2 + 1)
              (((constField 1 16 5).getField 0).get ((q.1 + 2) * 4 + q.2 + 2)))
          ((constField 1 16 0).getField 0) := by
    simp only [FieldCopy2D, GenericField.getField]
    rw [copyParamsEx]
    norm_num [toBlockEx, fromBlockEx]
  have hval : ((FieldCopy2D (constField 1 16 5) (constField 1 16 0) fromBlockEx
        fromBaseBlockEx toBlockEx toBaseBlockEx).getField 0).get 5 = 5 := by
    rw [h0, show loopPairs 1 1 = [((0 : ℤ), (0 : ℤ))] from rfl]
    show (((constField 1 16 0).getField 0).set ((0 + 1) * 4 + 0 + 1)
        (((constField 1 16 5).getField 0).get ((0 + 2) * 4 + 0 + 2))).get 5 = 5
    rw [show ((0 : ℤ) + 1) * 4 + 0 + 1 = 5 by norm_num]
    exact GenericArray.get_set_self _ _ _
  have hne : ((FieldCopy2D (constField 1 16 5) (constField 1 16 0) fromBlockEx
        fromBaseBlockEx toBlockEx toBaseBlockEx).getField 0).get 5
      ≠ ((constField 1 16 0).getField 0).get 5 := by
    rw [hval]
    intro h
    have : (5 : ℚ) = 0 := h
    norm_num at this
  exact (transfer_ops_stay_in_bounds.1 1 (constField 1 16 5) (constField 1 16 0)
    fromBlockEx fromBaseBlockEx toBlockEx toBaseBlockEx
    { Nx := 1, Ny := 1, startFromx := 2, startFromy := 2, startTox := 1, startToy := 1 }
    copyParamsEx (by decide) (by decide) (by decide) (by decide) (by decide) (by decide)
    (by decide) (by decide)).1 0 5 hne

/-- Witness for the amended C10: resizing a 2-element array to 3. -/
theorem resize_semantics_witness :
    (GenericArray.Resize (GenericArray.mk 2 (fun _ => (7 : ℤ))) 3).count = 3 ∧
    (CyclicArray.Resize (CyclicArray.fromMemory 2 (fun _ => (7 : ℤ))) 3).remainder
      = ((3 : ℕ) : ℤ) - 1 :=
  ⟨((@resize_semantics ℤ _).2.1 (GenericArray.mk 2 (fun _ => (7 : ℤ))) 3 (by decide)).1,
   ((@resize_semantics ℤ _).2.2.2 (CyclicArray.fromMemory 2 (fun _ => (7 : ℤ))) 3
      (by decide)).2.2.2.1⟩

end FreeLB
